import Mathlib

/-!
Verification of the Deck Composition Engine and Interchange Codec of the
yugioh-genesys repository (`src/services/DeckManager.ts`,
`src/services/DeckStorageService.ts`, `src/types/Card.ts`).

The TypeScript code is shallowly embedded: JS objects become structures,
in-place mutation becomes explicit state passing, `undefined`-able values
become `Option`, and rejected promises become `Except`.  JS strings are
modelled as `List Char` (ASCII-faithful), with the JS built-ins
(`trim`, `toLowerCase`, `split`, `Number.parseInt`, …) defined explicitly
below so that their exact semantics is part of the embedding.

The scoring table (`GenesysService.getCardPoints`) and the card catalog
(`YugiohApiService.getCardById`) are external collaborators of the engine
(network / static data); they are parameters (`pts : String → Int`,
`lookup : Int → Option Card`) of every definition that consumes them.
-/

namespace YGG

/-- `Card` from `src/types/Card.ts` (fields not read by the engine are
omitted; the source field `type` is spelled `ctype` because `type` is a
Lean keyword). -/
structure Card where
  id : Int
  name : String
  ctype : String
deriving DecidableEq, Repr

/-- `DeckCard` from `src/types/Card.ts`: `{ card, quantity }`. -/
structure DeckCard where
  card : Card
  quantity : Int
deriving DecidableEq, Repr

/-- `DeckState` from `src/types/Card.ts`; `name` and `genesysPoints` are
optional in the source. -/
structure DeckState where
  mainDeck : List DeckCard
  extraDeck : List DeckCard
  sideDeck : List DeckCard
  name : Option String
  genesysPoints : Option Int
deriving DecidableEq, Repr

/-- The `DeckType` string-constant enumeration (`'main' | 'extra' | 'side'`). -/
inductive DeckTypeValue where
  | main
  | extra
  | side
deriving DecidableEq, Repr

/-- String value of a `DeckType` constant (used in template strings). -/
def deckTypeStr : DeckTypeValue → String
  | .main => "main"
  | .extra => "extra"
  | .side => "side"

/-- `EXTRA_DECK_TYPES` from `src/types/Card.ts`. -/
def EXTRA_DECK_TYPES : List String :=
  ["Fusion Monster",
   "Synchro Monster",
   "XYZ Monster",
   "Link Monster",
   "Pendulum Effect Fusion Monster",
   "Synchro Pendulum Effect Monster",
   "XYZ Pendulum Effect Monster"]

/-- The deck the `DeckManager` constructor builds. -/
def initialDeck : DeckState :=
  { mainDeck := [], extraDeck := [], sideDeck := [],
    name := some "My Deck", genesysPoints := none }

/-- `DeckManager.getCardDeckType`. -/
def getCardDeckType (card : Card) : DeckTypeValue :=
  if EXTRA_DECK_TYPES.contains card.ctype then DeckTypeValue.extra
  else DeckTypeValue.main

/-- `DeckManager.getDeckArray` (read access to the zone the argument names). -/
def getDeckArray (d : DeckState) : DeckTypeValue → List DeckCard
  | .main => d.mainDeck
  | .extra => d.extraDeck
  | .side => d.sideDeck

/-- Writing back a zone array (the source mutates the array returned by
`getDeckArray` in place; here that is an explicit field update). -/
def setDeckArray (d : DeckState) : DeckTypeValue → List DeckCard → DeckState
  | .main, a => { d with mainDeck := a }
  | .extra, a => { d with extraDeck := a }
  | .side, a => { d with sideDeck := a }

/-- `DeckManager.getDeckLimit` (MAIN 60, EXTRA 15, SIDE 15). -/
def getDeckLimit : DeckTypeValue → Int
  | .main => 60
  | .extra => 15
  | .side => 15

/-- `DeckManager.getTotalCardsInDeck`: `reduce((total, dc) => total + dc.quantity, 0)`. -/
def getTotalCardsInDeck (d : DeckState) (t : DeckTypeValue) : Int :=
  (getDeckArray d t).foldl (fun total dc => total + dc.quantity) 0

/-- `DeckManager.findCardInDeck`: `find(dc => dc.card.id === cardId)`. -/
def findCardInDeck (cardId : Int) (t : DeckTypeValue) (d : DeckState) : Option DeckCard :=
  (getDeckArray d t).find? (fun dc => dc.card.id == cardId)

/-- `DeckManager.calculateGenesysPoints`, with the scoring table
`GenesysService.getCardPoints` abstracted as `pts`. -/
def calculateGenesysPoints (pts : String → Int) (d : DeckState) : Int :=
  (d.mainDeck ++ d.extraDeck ++ d.sideDeck).foldl
    (fun total dc => total + pts dc.card.name * dc.quantity) 0

/-- `DeckManager.getGenesysPoints`. -/
def getGenesysPoints (pts : String → Int) (d : DeckState) : Int :=
  calculateGenesysPoints pts d

/-- The snapshot `notifyListeners` / `getDeckState` build:
`{ ...this.deck, genesysPoints: this.calculateGenesysPoints() }`.
This is the JS object spread: a fresh top-level record (the zone arrays it
carries are the same arrays — aliasing is modelled separately below for the
snapshot-isolation claim). -/
def mkSnapshot (pts : String → Int) (d : DeckState) : DeckState :=
  { d with genesysPoints := some (calculateGenesysPoints pts d) }

/-- `DeckManager.getDeckState`. -/
def getDeckState (pts : String → Int) (d : DeckState) : DeckState :=
  mkSnapshot pts d

/-- Result object of `canAddCard`. -/
structure CanAddResult where
  canAdd : Bool
  reason : Option String
  suggestedDeckType : Option DeckTypeValue
deriving DecidableEq, Repr

/-- `DeckManager.canAddCard`.  `overrideDeckType || getCardDeckType(card)`
is `Option.getD` (every `DeckType` string is truthy). -/
def canAddCard (d : DeckState) (card : Card) (overrideDeckType : Option DeckTypeValue) :
    CanAddResult :=
  let deckType := overrideDeckType.getD (getCardDeckType card)
  let deckArray := getDeckArray d deckType
  let deckLimit := getDeckLimit deckType
  if getTotalCardsInDeck d deckType ≥ deckLimit then
    { canAdd := false,
      reason := some (deckTypeStr deckType ++ " deck is full (" ++ toString deckLimit ++ ")."),
      suggestedDeckType := none }
  else
    match deckArray.find? (fun dc => dc.card.id == card.id) with
    | some existingCard =>
      if existingCard.quantity ≥ 3 then
        { canAdd := false,
          reason := some "Maximum copies reached for this card.",
          suggestedDeckType := none }
      else if overrideDeckType.isNone ∧ deckType = DeckTypeValue.main ∧
          EXTRA_DECK_TYPES.contains card.ctype then
        { canAdd := false,
          reason := some "This card belongs to the Extra Deck.",
          suggestedDeckType := some DeckTypeValue.extra }
      else
        { canAdd := true, reason := none, suggestedDeckType := none }
    | none =>
      if overrideDeckType.isNone ∧ deckType = DeckTypeValue.main ∧
          EXTRA_DECK_TYPES.contains card.ctype then
        { canAdd := false,
          reason := some "This card belongs to the Extra Deck.",
          suggestedDeckType := some DeckTypeValue.extra }
      else
        { canAdd := true, reason := none, suggestedDeckType := none }

/-- In-place `existingCard.quantity += 1` on the first entry whose card id
matches (the source increments the object returned by `find`). -/
def bumpFirst (cardId : Int) : List DeckCard → List DeckCard
  | [] => []
  | dc :: rest =>
    if dc.card.id == cardId then { dc with quantity := dc.quantity + 1 } :: rest
    else dc :: bumpFirst cardId rest

/-- `DeckManager.addCard`.  The returned list is the sequence of snapshots
handed to `notifyListeners` (empty on failure, one element on success); each
notification invokes every registered listener once with that snapshot. -/
def addCard (pts : String → Int) (card : Card) (deckType : Option DeckTypeValue)
    (d : DeckState) : Bool × DeckState × List DeckState :=
  let targetDeck := deckType.getD (getCardDeckType card)
  let validation := canAddCard d card (some targetDeck)
  if !validation.canAdd then
    (false, d, [])
  else
    let deckArray := getDeckArray d targetDeck
    let d' :=
      match findCardInDeck card.id targetDeck d with
      | some _ => setDeckArray d targetDeck (bumpFirst card.id deckArray)
      | none => setDeckArray d targetDeck (deckArray ++ [{ card := card, quantity := 1 }])
    (true, d', [mkSnapshot pts d'])

/-- `DeckManager.addCardById`: finds the card reference among the entries of
all three zones, then delegates to `addCard`. -/
def addCardById (pts : String → Int) (cardId : Int) (deckType : DeckTypeValue)
    (d : DeckState) : Bool × DeckState × List DeckState :=
  let allDecks := d.mainDeck ++ d.extraDeck ++ d.sideDeck
  match allDecks.find? (fun item => item.card.id == cardId) with
  | none => (false, d, [])
  | some deckCard => addCard pts deckCard.card (some deckType) d

/-- `findIndex` + `splice`/decrement of `DeckManager.removeCard`, acting on
the first entry whose card id matches. -/
def removeCardFromArray (cardId : Int) (removeAll : Bool) : List DeckCard → List DeckCard
  | [] => []
  | dc :: rest =>
    if dc.card.id == cardId then
      if removeAll || dc.quantity == 1 then rest
      else { dc with quantity := dc.quantity - 1 } :: rest
    else dc :: removeCardFromArray cardId removeAll rest

/-- `DeckManager.removeCard`. -/
def removeCard (pts : String → Int) (cardId : Int) (deckType : DeckTypeValue)
    (removeAll : Bool) (d : DeckState) : Bool × DeckState × List DeckState :=
  let deckArray := getDeckArray d deckType
  if deckArray.any (fun dc => dc.card.id == cardId) then
    let d' := setDeckArray d deckType (removeCardFromArray cardId removeAll deckArray)
    (true, d', [mkSnapshot pts d'])
  else
    (false, d, [])

/-- `DeckManager.clearDeck` (`deckArray.length = 0`). -/
def clearDeck (pts : String → Int) (deckType : DeckTypeValue) (d : DeckState) :
    DeckState × List DeckState :=
  let d' := setDeckArray d deckType []
  (d', [mkSnapshot pts d'])

/-- `DeckManager.clearAllDecks`. -/
def clearAllDecks (pts : String → Int) (d : DeckState) : DeckState × List DeckState :=
  let d' := { d with mainDeck := [], extraDeck := [], sideDeck := [] }
  (d', [mkSnapshot pts d'])

/-- `DeckManager.setDeckName` (stores the argument, then notifies). -/
def setDeckName (pts : String → Int) (name : String) (d : DeckState) :
    DeckState × List DeckState :=
  let d' := { d with name := some name }
  (d', [mkSnapshot pts d'])

/-- `DeckManager.loadDeck` (`this.deck = { ...deckState }`). -/
def loadDeck (pts : String → Int) (deckState : DeckState) (_d : DeckState) :
    DeckState × List DeckState :=
  (deckState, [mkSnapshot pts deckState])

/-- One notification event delivers the payload to every registered listener
in order (`this.listeners.forEach((callback) => callback(deckWithPoints))`);
listeners are identified here by an index. -/
def deliveries (listeners : List Nat) (events : List DeckState) :
    List (Nat × DeckState) :=
  events.flatMap (fun e => listeners.map (fun l => (l, e)))

/-! ## JS string built-ins used by the Interchange Codec

JS strings are modelled as `List Char`.  `trim`, `toLowerCase`,
`startsWith`, `split(/\r?\n/)` and `Number.parseInt(s, 10)` are defined
here with their JS semantics (ASCII-faithful; the engine only ever compares
against ASCII literals). -/

/-- JS whitespace as far as the codec is concerned (the characters `trim`
and `split` interact with in deck-list files). -/
def isSpaceChar (c : Char) : Bool :=
  c = ' ' || c = '\t' || c = '\n' || c = '\r' || c = '\x0b' || c = '\x0c'

/-- JS `String.prototype.trim`. -/
def trimChars (cs : List Char) : List Char :=
  ((cs.dropWhile isSpaceChar).reverse.dropWhile isSpaceChar).reverse

/-- JS `String.prototype.trimEnd` (used by the serializer). -/
def trimEndChars (cs : List Char) : List Char :=
  (cs.reverse.dropWhile isSpaceChar).reverse

/-- JS `String.prototype.toLowerCase` (ASCII). -/
def lowerChars (cs : List Char) : List Char :=
  cs.map Char.toLower

/-- JS `String.prototype.startsWith pat s` (does `s` start with `pat`?). -/
def beginsWith : List Char → List Char → Bool
  | [], _ => true
  | _ :: _, [] => false
  | p :: ps, c :: cs => p == c && beginsWith ps cs

/-- JS `content.split('\n')`-style splitting.  The source splits on
`/\r?\n/`; a `'\r'` sitting right before a `'\n'` ends up at the end of the
preceding piece here and is discarded by the `trim` applied to every line,
so line processing is unchanged. -/
def splitLines : List Char → List (List Char)
  | [] => [[]]
  | c :: rest =>
    if c = '\n' then [] :: splitLines rest
    else
      match splitLines rest with
      | [] => [[c]]
      | l :: ls => (c :: l) :: ls

/-- Decimal value of a digit run. -/
def digitsVal (ds : List Char) : Nat :=
  ds.foldl (fun acc c => acc * 10 + (c.toNat - 48)) 0

/-- JS `Number.parseInt(s, 10)` on an already-trimmed string: optional
sign, then the maximal leading run of decimal digits; `NaN` (here `none`)
when that run is empty.  Parsing stops at the first non-digit, so e.g.
`"12abc"` yields `12`. -/
def parseIntBase10 (s : List Char) : Option Int :=
  match s with
  | [] => none
  | c :: t =>
    if c = '-' then
      let ds := t.takeWhile Char.isDigit
      if ds.isEmpty then none else some (-(digitsVal ds : Int))
    else if c = '+' then
      let ds := t.takeWhile Char.isDigit
      if ds.isEmpty then none else some (digitsVal ds : Int)
    else
      let ds := (c :: t).takeWhile Char.isDigit
      if ds.isEmpty then none else some (digitsVal ds : Int)

/-! ## Interchange Codec (`DeckStorageService`) -/

/-- Fold state of the line loop in `parseYdkContent` (`mainIds`,
`extraIds`, `sideIds`, `currentSection`, `deckName`). -/
structure ParseAcc where
  mainIds : List Int
  extraIds : List Int
  sideIds : List Int
  currentSection : DeckTypeValue
  deckName : Option (List Char)
deriving DecidableEq, Repr

/-- Initial fold state (`currentSection = 'main'`, no name). -/
def initialAcc : ParseAcc :=
  { mainIds := [], extraIds := [], sideIds := [],
    currentSection := DeckTypeValue.main, deckName := none }

/-- The body of the `for (const rawLine of lines)` loop in
`parseYdkContent`. -/
def parseLine (acc : ParseAcc) (rawLine : List Char) : ParseAcc :=
  let line := trimChars rawLine
  if line = [] then acc
  else if beginsWith ['#'] line then
    let lower := lowerChars line
    if beginsWith "#created by".data lower then
      let n := trimChars (line.drop 11)
      { acc with deckName := if n = [] then none else some n }
    else if beginsWith "#main".data lower then
      { acc with currentSection := DeckTypeValue.main }
    else if beginsWith "#extra".data lower then
      { acc with currentSection := DeckTypeValue.extra }
    else acc
  else if beginsWith ['!'] line then
    if beginsWith "!side".data (lowerChars line) then
      { acc with currentSection := DeckTypeValue.side }
    else acc
  else
    match parseIntBase10 line with
    | none => acc
    | some cardId =>
      match acc.currentSection with
      | .extra => { acc with extraIds := acc.extraIds ++ [cardId] }
      | .side => { acc with sideIds := acc.sideIds ++ [cardId] }
      | .main => { acc with mainIds := acc.mainIds ++ [cardId] }

/-- The whole line loop of `parseYdkContent` over the split input. -/
def parseYdkLines (content : String) : ParseAcc :=
  (splitLines content.data).foldl parseLine initialAcc

/-- The `order` array of `buildDeckSectionFromIds`: ids in first-seen
order. -/
def firstSeenOrder (ids : List Int) : List Int :=
  ids.foldl (fun order i => if order.contains i then order else order ++ [i]) []

/-- The resolution loop of `buildDeckSectionFromIds`: walk `order`, resolve
each id through the catalog, throw on the first id the catalog cannot
resolve, and attach `counts.get(id)` as the quantity. -/
def resolveOrder (lookup : Int → Option Card) (qty : Int → Nat) :
    List Int → Except String (List DeckCard)
  | [] => Except.ok []
  | i :: rest =>
    match lookup i with
    | none =>
      Except.error ("Card with ID " ++ toString i ++
        " could not be found while importing the deck.")
    | some card =>
      match resolveOrder lookup qty rest with
      | Except.error e => Except.error e
      | Except.ok tail => Except.ok ({ card := card, quantity := (qty i : Int) } :: tail)

/-- `DeckStorageService.buildDeckSectionFromIds`. -/
def buildDeckSectionFromIds (lookup : Int → Option Card) (ids : List Int) :
    Except String (List DeckCard) :=
  resolveOrder lookup (fun i => ids.count i) (firstSeenOrder ids)

/-- `DeckStorageService.parseYdkContent`.  The three zone resolutions run
under `Promise.all`; they are sequenced main, extra, side here (the source
settles on the same error/value outcomes). -/
def parseYdkContent (lookup : Int → Option Card) (content : String) :
    Except String DeckState :=
  let acc := parseYdkLines content
  match buildDeckSectionFromIds lookup acc.mainIds with
  | Except.error e => Except.error e
  | Except.ok mainDeck =>
    match buildDeckSectionFromIds lookup acc.extraIds with
    | Except.error e => Except.error e
    | Except.ok extraDeck =>
      match buildDeckSectionFromIds lookup acc.sideIds with
      | Except.error e => Except.error e
      | Except.ok sideDeck =>
        Except.ok
          { mainDeck := mainDeck, extraDeck := extraDeck, sideDeck := sideDeck,
            name := some (String.mk (acc.deckName.getD "Imported Deck".data)),
            genesysPoints := none }

/-- Decimal digit character (`k < 10`; larger arguments clamp to `'9'`,
never reached). -/
def digitChar : Nat → Char
  | 0 => '0'
  | 1 => '1'
  | 2 => '2'
  | 3 => '3'
  | 4 => '4'
  | 5 => '5'
  | 6 => '6'
  | 7 => '7'
  | 8 => '8'
  | _ => '9'

/-- Decimal rendering of a natural number, fuelled for structural
recursion (`fuel > n` suffices). -/
def natDecimalAux : Nat → Nat → List Char
  | 0, _ => []
  | fuel + 1, n =>
    if n < 10 then [digitChar n]
    else natDecimalAux fuel (n / 10) ++ [digitChar (n % 10)]

/-- Decimal rendering of a natural number. -/
def natDecimal (n : Nat) : List Char :=
  natDecimalAux (n + 1) n

/-- JS `Number.prototype.toString()` on an integer value (what the
serializer writes for a card id). -/
def intDecimal (i : Int) : List Char :=
  if i < 0 then '-' :: natDecimal (-i).toNat else natDecimal i.toNat

/-- `DeckStorageService.serializeDeckSection`: one line per copy; entries
whose card id is falsy (`0`) are skipped. -/
def serializeDeckSection (sec : List DeckCard) : List (List Char) :=
  sec.flatMap (fun dc =>
    if dc.card.id == 0 then []
    else List.replicate dc.quantity.toNat (intDecimal dc.card.id))

/-- The line list `buildYdkContent` pushes before joining. -/
def buildYdkLines (d : DeckState) : List (List Char) :=
  let deckName :=
    match d.name with
    | none => "Yu-Gi-Oh! Genesys Deck".data
    | some n =>
      if trimChars n.data = [] then "Yu-Gi-Oh! Genesys Deck".data
      else trimChars n.data
  ("#created by ".data ++ deckName) ::
    "#main".data ::
    serializeDeckSection d.mainDeck ++
    "#extra".data ::
    serializeDeckSection d.extraDeck ++
    "!side".data ::
    serializeDeckSection d.sideDeck

/-- JS `lines.join('\n')`. -/
def joinLines : List (List Char) → List Char
  | [] => []
  | [l] => l
  | l :: ls => l ++ '\n' :: joinLines ls

/-- `DeckStorageService.buildYdkContent`:
`lines.join('\n').trimEnd() + '\n'`. -/
def buildYdkContent (d : DeckState) : String :=
  String.mk (trimEndChars (joinLines (buildYdkLines d)) ++ ['\n'])

/-- The import flow at the engine boundary (`handleImportDeck` in the UI):
`loadDeck` runs only when `parseYdkContent` resolves; a rejected import
leaves the engine untouched. -/
def importFlow (pts : String → Int) (lookup : Int → Option Card)
    (content : String) (engine : DeckState) : DeckState :=
  match parseYdkContent lookup content with
  | Except.ok deckState => (loadDeck pts deckState engine).1
  | Except.error _ => engine

/-! ## Spec-side definitions (used to state the claims, written from the
specification's wording rather than from the source) -/

/-- The deck with every entry's quantity doubled (for the score-linearity
claim). -/
def doubleQuantities (d : DeckState) : DeckState :=
  { d with
    mainDeck := d.mainDeck.map (fun dc => { dc with quantity := 2 * dc.quantity }),
    extraDeck := d.extraDeck.map (fun dc => { dc with quantity := 2 * dc.quantity }),
    sideDeck := d.sideDeck.map (fun dc => { dc with quantity := 2 * dc.quantity }) }

/-- Sum of entry quantities of a zone array. -/
def sumQ (zone : List DeckCard) : Int :=
  (zone.map (fun dc => dc.quantity)).sum

/-- The spec's per-zone invariant at capacity `cap`: quantities sum to at
most the capacity, every quantity lies in `[1, 3]`, and card ids are
pairwise distinct. -/
def zoneOk (zone : List DeckCard) (cap : Int) : Prop :=
  sumQ zone ≤ cap ∧
  (∀ dc ∈ zone, 1 ≤ dc.quantity ∧ dc.quantity ≤ 3) ∧
  (zone.map (fun dc => dc.card.id)).Nodup

/-- The spec's deck invariant: Main at capacity 60, Extra and Side at 15. -/
def DeckInvariant (d : DeckState) : Prop :=
  zoneOk d.mainDeck 60 ∧ zoneOk d.extraDeck 15 ∧ zoneOk d.sideDeck 15

/-- The engine's mutating operations quantified over by the invariant
claim (`loadDeck` excluded there). -/
inductive Op where
  | add (card : Card) (deckType : Option DeckTypeValue)
  | addById (cardId : Int) (deckType : DeckTypeValue)
  | remove (cardId : Int) (deckType : DeckTypeValue) (removeAll : Bool)
  | clearZone (deckType : DeckTypeValue)
  | clearAll
  | rename (name : String)

/-- State transition of one mutating operation. -/
def applyOp (pts : String → Int) (d : DeckState) : Op → DeckState
  | .add card dt => (addCard pts card dt d).2.1
  | .addById i dt => (addCardById pts i dt d).2.1
  | .remove i dt ra => (removeCard pts i dt ra d).2.1
  | .clearZone dt => (clearDeck pts dt d).1
  | .clearAll => (clearAllDecks pts d).1
  | .rename n => (setDeckName pts n d).1

/-- Running a sequence of mutating operations from the empty deck the
constructor builds. -/
def runOps (pts : String → Int) (ops : List Op) : DeckState :=
  ops.foldl (applyOp pts) initialDeck

/-- All card ids the line loop accumulated, across the three zones. -/
def allParsedIds (acc : ParseAcc) : List Int :=
  acc.mainIds ++ acc.extraIds ++ acc.sideIds

/-! ## General helper lemmas -/

theorem foldl_add_eq {α : Type} (f : α → Int) (l : List α) (a : Int) :
    l.foldl (fun t x => t + f x) a = a + (l.map f).sum := by
  induction l generalizing a with
  | nil => simp
  | cons x xs ih => simp [ih, add_assoc]

theorem calculateGenesysPoints_eq_sum (pts : String → Int) (d : DeckState) :
    calculateGenesysPoints pts d =
      ((d.mainDeck ++ d.extraDeck ++ d.sideDeck).map
        (fun dc => pts dc.card.name * dc.quantity)).sum := by
  unfold calculateGenesysPoints
  rw [foldl_add_eq]
  simp

theorem getTotalCardsInDeck_eq_sumQ (d : DeckState) (t : DeckTypeValue) :
    getTotalCardsInDeck d t = sumQ (getDeckArray d t) := by
  unfold getTotalCardsInDeck sumQ
  rw [foldl_add_eq]
  simp

theorem deliveries_singleton (L : List Nat) (e : DeckState) :
    deliveries L [e] = L.map (fun l => (l, e)) := by
  simp [deliveries]

/-! ## C6: the score is the sum of table points times quantities -/

/-- C6: for every scoring table and deck state, the computed score is the
sum over the entries of all three zones of the table's points for the
card's name times the entry's quantity; the empty deck scores 0, and
doubling every quantity doubles the score. -/
theorem c6_score_formula (pts : String → Int) (d : DeckState) :
    calculateGenesysPoints pts d =
      ((d.mainDeck ++ d.extraDeck ++ d.sideDeck).map
        (fun dc => pts dc.card.name * dc.quantity)).sum ∧
    getGenesysPoints pts initialDeck = 0 ∧
    calculateGenesysPoints pts (doubleQuantities d) =
      2 * calculateGenesysPoints pts d := by
  refine ⟨calculateGenesysPoints_eq_sum pts d, by simp [getGenesysPoints, calculateGenesysPoints, initialDeck], ?_⟩
  rw [calculateGenesysPoints_eq_sum, calculateGenesysPoints_eq_sum]
  simp only [doubleQuantities, ← List.map_append, List.map_map, Function.comp_def]
  generalize (d.mainDeck ++ d.extraDeck ++ d.sideDeck) = l
  induction l with
  | nil => simp
  | cons x xs ih => simp only [List.map_cons, List.sum_cons, ih]; ring

/-! ## C10: what `setDeckName` does with its input -/

/-- A concrete scoring table for closed instantiations. -/
def pts0 : String → Int := fun _ => 0

/-- C10 counterexample: `setDeckName "  "` stores the two-space string
itself; the stored name is neither the normalized `"My Deck"` nor the
trimmed input (which would be empty), so `setDeckName` does not trim and
does not normalize blank input. -/
theorem c10_counterexample :
    (setDeckName pts0 "  " initialDeck).1.name = some "  " ∧
    ("  " : String) ≠ "My Deck" ∧
    trimChars "  ".data ≠ "  ".data := by
  exact ⟨rfl, by decide, by decide⟩

/-- C10 amended: `setDeckName` stores the given string verbatim as the
deck name (no trimming, no empty-string normalization — those happen in
the UI caller before it invokes the engine), leaves every zone unchanged,
and notifies each registered listener exactly once with the post-update
snapshot. -/
theorem c10_setName_stores_verbatim (pts : String → Int) (s : String)
    (d : DeckState) (L : List Nat) :
    (setDeckName pts s d).1.name = some s ∧
    (setDeckName pts s d).1.mainDeck = d.mainDeck ∧
    (setDeckName pts s d).1.extraDeck = d.extraDeck ∧
    (setDeckName pts s d).1.sideDeck = d.sideDeck ∧
    deliveries L (setDeckName pts s d).2 =
      L.map (fun l => (l, mkSnapshot pts (setDeckName pts s d).1)) := by
  refine ⟨rfl, rfl, rfl, rfl, ?_⟩
  exact deliveries_singleton L _

/-! ## C3: adding an extra-deck card with no explicit zone -/

/-- A concrete extra-deck card for closed instantiations. -/
def fusionSample : Card :=
  { id := 10, name := "Sample Fusion", ctype := "Fusion Monster" }

theorem canAddCard_some_eq_true (d : DeckState) (card : Card) (t : DeckTypeValue)
    (hCap : getTotalCardsInDeck d t < getDeckLimit t)
    (hCop : ∀ dc ∈ getDeckArray d t, dc.card.id = card.id → dc.quantity < 3) :
    canAddCard d card (some t) =
      { canAdd := true, reason := none, suggestedDeckType := none } := by
  simp only [canAddCard, Option.getD_some]
  rw [if_neg (not_le.mpr hCap)]
  cases hfind : (getDeckArray d t).find? (fun dc => dc.card.id == card.id) with
  | none => simp
  | some ec =>
    have hmem := List.mem_of_find?_eq_some hfind
    have hid : ec.card.id = card.id := by
      have := List.find?_some hfind
      simpa using this
    simp [not_le.mpr (hCop ec hmem hid)]

/-- Success of `addCard` whenever its internal validation passes. -/
theorem addCard_ok_of_canAdd (pts : String → Int) (card : Card) (t : DeckTypeValue)
    (d : DeckState) (h : (canAddCard d card (some t)).canAdd = true) :
    (addCard pts card (some t) d).1 = true := by
  simp only [addCard, Option.getD_some, h]
  cases hfind : findCardInDeck card.id t d <;> simp [hfind]

/-- C3 counterexample: a card whose type tag is in the extra-deck list,
against the empty deck (so neither Main nor Extra blocks the add):
`canAddCard` with no explicit zone resolves the zone to Extra via the
classifier and returns `canAdd = true` with no suggestion — the claimed
`allowed = false` / `suggestedZone = Extra` result does not occur (the
suggestion branch requires a Main-resolved zone together with an
extra-deck type tag, which the classifier makes impossible). -/
theorem c3_counterexample :
    EXTRA_DECK_TYPES.contains fusionSample.ctype = true ∧
    getTotalCardsInDeck initialDeck DeckTypeValue.extra <
      getDeckLimit DeckTypeValue.extra ∧
    getTotalCardsInDeck initialDeck DeckTypeValue.main <
      getDeckLimit DeckTypeValue.main ∧
    canAddCard initialDeck fusionSample none =
      { canAdd := true, reason := none, suggestedDeckType := none } := by
  decide

/-- C3 amended: for every card whose type tag is in the extra-deck type
list and every deck where neither Main nor Extra blocks the add, calling
`canAddCard` with no explicit target zone resolves the target to Extra and
returns `canAdd = true` with no suggested zone (the `suggestedDeckType`
branch of the source is unreachable), and `addCard` with explicit zone
Extra succeeds. -/
theorem c3_extra_card_autoroutes (pts : String → Int) (card : Card) (d : DeckState)
    (hType : EXTRA_DECK_TYPES.contains card.ctype = true)
    (hCapMain : getTotalCardsInDeck d DeckTypeValue.main <
      getDeckLimit DeckTypeValue.main)
    (hCapExtra : getTotalCardsInDeck d DeckTypeValue.extra <
      getDeckLimit DeckTypeValue.extra)
    (hCopMain : ∀ dc ∈ d.mainDeck, dc.card.id = card.id → dc.quantity < 3)
    (hCopExtra : ∀ dc ∈ d.extraDeck, dc.card.id = card.id → dc.quantity < 3) :
    getCardDeckType card = DeckTypeValue.extra ∧
    canAddCard d card none =
      { canAdd := true, reason := none, suggestedDeckType := none } ∧
    (addCard pts card (some DeckTypeValue.extra) d).1 = true := by
  have hmemT : card.ctype ∈ EXTRA_DECK_TYPES := by simpa using hType
  have hclass : getCardDeckType card = DeckTypeValue.extra := by
    simp [getCardDeckType, hmemT]
  refine ⟨hclass, ?_, ?_⟩
  · simp only [canAddCard, Option.getD_none, hclass]
    rw [if_neg (not_le.mpr hCapExtra)]
    cases hfind : (getDeckArray d DeckTypeValue.extra).find?
        (fun dc => dc.card.id == card.id) with
    | none => simp
    | some ec =>
      have hmem := List.mem_of_find?_eq_some hfind
      have hid : ec.card.id = card.id := by
        have := List.find?_some hfind
        simpa using this
      simp [not_le.mpr (hCopExtra ec hmem hid)]
  · exact addCard_ok_of_canAdd pts card DeckTypeValue.extra d
      (by rw [canAddCard_some_eq_true d card DeckTypeValue.extra hCapExtra hCopExtra])

/-- Closed instantiation of the C3 amendment. -/
theorem c3_extra_card_autoroutes_witness :
    getCardDeckType fusionSample = DeckTypeValue.extra ∧
    canAddCard initialDeck fusionSample none =
      { canAdd := true, reason := none, suggestedDeckType := none } ∧
    (addCard pts0 fusionSample (some DeckTypeValue.extra) initialDeck).1 = true :=
  c3_extra_card_autoroutes pts0 fusionSample initialDeck (by decide) (by decide)
    (by decide) (by simp [initialDeck]) (by simp [initialDeck])

/-! ## C4: mutations either fail silently or notify exactly once -/

/-- With an explicit target zone, `canAddCard` rejects exactly when the
zone is at capacity or the card's entry already holds 3 copies (the
suggestion branch needs an omitted override and cannot fire). -/
theorem canAddCard_some_false_iff (d : DeckState) (card : Card) (t : DeckTypeValue) :
    (canAddCard d card (some t)).canAdd = false ↔
      getDeckLimit t ≤ getTotalCardsInDeck d t ∨
      ∃ dc, (getDeckArray d t).find? (fun x => x.card.id == card.id) = some dc ∧
        3 ≤ dc.quantity := by
  simp only [canAddCard, Option.getD_some]
  by_cases hcap : getTotalCardsInDeck d t ≥ getDeckLimit t
  · simp [hcap]
  · rw [if_neg hcap]
    cases hfind : (getDeckArray d t).find? (fun x => x.card.id == card.id) with
    | none => simp [hcap]
    | some ec =>
      by_cases hq : ec.quantity ≥ 3
      · simp [hq]
      · simp [hq, hcap]

/-- Failed validation: `addCard` returns false, leaves the deck unchanged
and emits no notification. -/
theorem addCard_fail (pts : String → Int) (card : Card) (t : DeckTypeValue)
    (d : DeckState) (h : (canAddCard d card (some t)).canAdd = false) :
    addCard pts card (some t) d = (false, d, []) := by
  simp [addCard, h]

/-- Successful validation: `addCard` emits exactly one notification whose
payload is the snapshot of the post-mutation deck with the freshly
recomputed score. -/
theorem addCard_events (pts : String → Int) (card : Card) (t : DeckTypeValue)
    (d : DeckState) (h : (canAddCard d card (some t)).canAdd = true) :
    (addCard pts card (some t) d).2.2 =
      [mkSnapshot pts (addCard pts card (some t) d).2.1] := by
  simp only [addCard, Option.getD_some, h]
  cases hfind : findCardInDeck card.id t d <;> simp [hfind]

/-- `removeCard` on a card id absent from the zone: returns false, leaves
the deck unchanged and emits no notification. -/
theorem removeCard_absent (pts : String → Int) (cardId : Int) (t : DeckTypeValue)
    (removeAll : Bool) (d : DeckState)
    (h : ∀ dc ∈ getDeckArray d t, dc.card.id ≠ cardId) :
    removeCard pts cardId t removeAll d = (false, d, []) := by
  have hany : (getDeckArray d t).any (fun dc => dc.card.id == cardId) = false := by
    simp only [List.any_eq_false]
    intro dc hdc
    simpa using h dc hdc
  simp [removeCard, hany]

/-- C4: for every card and explicit target zone, when validation fails
(zone at capacity, or the card's entry already at 3 copies) `addCard`
returns false with the deck unchanged and no listener invoked; when
validation succeeds it returns true and every registered listener is
invoked exactly once, with the snapshot of the mutated deck carrying the
recomputed score; `removeCard` on an absent card id likewise returns
false, changes nothing and notifies nobody. -/
theorem c4_notification_discipline (pts : String → Int) (card : Card)
    (t : DeckTypeValue) (cardId : Int) (removeAll : Bool) (d : DeckState)
    (L : List Nat) :
    ((getDeckLimit t ≤ getTotalCardsInDeck d t ∨
        ∃ dc, (getDeckArray d t).find? (fun x => x.card.id == card.id) = some dc ∧
          3 ≤ dc.quantity) →
      addCard pts card (some t) d = (false, d, [])) ∧
    ((canAddCard d card (some t)).canAdd = true →
      (addCard pts card (some t) d).1 = true ∧
      (addCard pts card (some t) d).2.2 =
        [mkSnapshot pts (addCard pts card (some t) d).2.1] ∧
      deliveries L (addCard pts card (some t) d).2.2 =
        L.map (fun l => (l, mkSnapshot pts (addCard pts card (some t) d).2.1))) ∧
    ((∀ dc ∈ getDeckArray d t, dc.card.id ≠ cardId) →
      removeCard pts cardId t removeAll d = (false, d, [])) := by
  refine ⟨?_, ?_, removeCard_absent pts cardId t removeAll d⟩
  · intro hbad
    exact addCard_fail pts card t d ((canAddCard_some_false_iff d card t).mpr hbad)
  · intro hok
    refine ⟨addCard_ok_of_canAdd pts card t d hok, addCard_events pts card t d hok, ?_⟩
    rw [addCard_events pts card t d hok]
    exact deliveries_singleton L _

/-- A concrete main-deck card and a deck already holding 3 copies of it. -/
def monsterSample : Card :=
  { id := 20, name := "Sample Monster", ctype := "Effect Monster" }

/-- Deck with `monsterSample` at the copy cap in Main. -/
def cappedDeck : DeckState :=
  { mainDeck := [{ card := monsterSample, quantity := 3 }],
    extraDeck := [], sideDeck := [], name := some "My Deck", genesysPoints := none }

/-- Closed instantiation of C4: the capped add fails without touching the
deck or the listeners, and removing an id absent from Main is a silent
no-op. -/
theorem c4_notification_discipline_witness :
    addCard pts0 monsterSample (some DeckTypeValue.main) cappedDeck =
      (false, cappedDeck, []) ∧
    removeCard pts0 99 DeckTypeValue.main false initialDeck =
      (false, initialDeck, []) :=
  ⟨(c4_notification_discipline pts0 monsterSample DeckTypeValue.main 99 false
      cappedDeck []).1
    (Or.inr ⟨{ card := monsterSample, quantity := 3 }, by decide, by decide⟩),
   (c4_notification_discipline pts0 monsterSample DeckTypeValue.main 99 false
      initialDeck []).2.2 (by decide)⟩

/-! ## C1: the deck invariant is preserved by every mutating operation -/

theorem sumQ_nil : sumQ [] = 0 := rfl

theorem sumQ_cons (dc : DeckCard) (l : List DeckCard) :
    sumQ (dc :: l) = dc.quantity + sumQ l := by
  simp [sumQ]

theorem sumQ_append (l₁ l₂ : List DeckCard) :
    sumQ (l₁ ++ l₂) = sumQ l₁ + sumQ l₂ := by
  simp [sumQ]

theorem getDeckArray_setDeckArray_self (d : DeckState) (t : DeckTypeValue)
    (a : List DeckCard) : getDeckArray (setDeckArray d t a) t = a := by
  cases t <;> rfl

theorem getDeckArray_setDeckArray_ne (d : DeckState) (t t' : DeckTypeValue)
    (a : List DeckCard) (h : t' ≠ t) :
    getDeckArray (setDeckArray d t a) t' = getDeckArray d t' := by
  cases t <;> cases t' <;> simp_all [getDeckArray, setDeckArray]

theorem deckInvariant_iff (d : DeckState) :
    DeckInvariant d ↔ ∀ t, zoneOk (getDeckArray d t) (getDeckLimit t) := by
  constructor
  · rintro ⟨h1, h2, h3⟩ t
    cases t <;> assumption
  · intro h
    exact ⟨h .main, h .extra, h .side⟩

theorem bumpFirst_map_id (i : Int) (l : List DeckCard) :
    (bumpFirst i l).map (fun dc => dc.card.id) = l.map (fun dc => dc.card.id) := by
  induction l with
  | nil => rfl
  | cons dc rest ih =>
    cases h : (dc.card.id == i) <;> simp [bumpFirst, h, ih]

theorem bumpFirst_sumQ (i : Int) (l : List DeckCard)
    (h : (l.find? (fun dc => dc.card.id == i)).isSome = true) :
    sumQ (bumpFirst i l) = sumQ l + 1 := by
  induction l with
  | nil => simp at h
  | cons dc rest ih =>
    cases hh : (dc.card.id == i) with
    | true =>
      simp only [bumpFirst, hh, if_true, sumQ_cons]
      ring
    | false =>
      have h' : (rest.find? (fun dc => dc.card.id == i)).isSome = true := by
        rwa [List.find?_cons_of_neg _ (by simp [hh])] at h
      simp only [bumpFirst, hh, if_false, Bool.false_eq_true, sumQ_cons, ih h']
      ring

theorem bumpFirst_bounds (i : Int) (l : List DeckCard) (ec : DeckCard)
    (hfind : l.find? (fun dc => dc.card.id == i) = some ec)
    (hlt : ec.quantity < 3)
    (hb : ∀ dc ∈ l, 1 ≤ dc.quantity ∧ dc.quantity ≤ 3) :
    ∀ dc ∈ bumpFirst i l, 1 ≤ dc.quantity ∧ dc.quantity ≤ 3 := by
  induction l with
  | nil => simp [bumpFirst]
  | cons hd rest ih =>
    cases hh : (hd.card.id == i) with
    | true =>
      rw [List.find?_cons_of_pos _ (by simp [hh])] at hfind
      have hed : hd = ec := by injection hfind
      subst hed
      intro dc hdc
      rcases (by simpa [bumpFirst, hh] using hdc :
          dc = { hd with quantity := hd.quantity + 1 } ∨ dc ∈ rest) with h1 | h2
      · subst h1
        have h0 := hb hd (List.mem_cons_self hd rest)
        constructor
        · simp; omega
        · simp; omega
      · exact hb dc (List.mem_cons_of_mem hd h2)
    | false =>
      rw [List.find?_cons_of_neg _ (by simp [hh])] at hfind
      intro dc hdc
      rcases (by simpa [bumpFirst, hh] using hdc :
          dc = hd ∨ dc ∈ bumpFirst i rest) with h1 | h2
      · subst h1
        exact hb dc (List.mem_cons_self dc rest)
      · exact ih hfind (fun x hx => hb x (List.mem_cons_of_mem hd hx)) dc h2

theorem removeCardFromArray_sumQ_le (i : Int) (ra : Bool) (l : List DeckCard)
    (hb : ∀ dc ∈ l, 1 ≤ dc.quantity) :
    sumQ (removeCardFromArray i ra l) ≤ sumQ l := by
  induction l with
  | nil => simp [removeCardFromArray]
  | cons hd rest ih =>
    have hhd := hb hd (List.mem_cons_self hd rest)
    have hrest : ∀ dc ∈ rest, 1 ≤ dc.quantity :=
      fun x hx => hb x (List.mem_cons_of_mem hd hx)
    cases hh : (hd.card.id == i) with
    | true =>
      cases hra : (ra || hd.quantity == 1) with
      | true =>
        simp only [removeCardFromArray, hh, if_true, hra, sumQ_cons]
        omega
      | false =>
        simp only [removeCardFromArray, hh, if_true, hra, Bool.false_eq_true,
          if_false, sumQ_cons]
        omega
    | false =>
      simp only [removeCardFromArray, hh, Bool.false_eq_true, if_false, sumQ_cons]
      have := ih hrest
      omega

theorem removeCardFromArray_bounds (i : Int) (ra : Bool) (l : List DeckCard)
    (hb : ∀ dc ∈ l, 1 ≤ dc.quantity ∧ dc.quantity ≤ 3) :
    ∀ dc ∈ removeCardFromArray i ra l, 1 ≤ dc.quantity ∧ dc.quantity ≤ 3 := by
  induction l with
  | nil => simp [removeCardFromArray]
  | cons hd rest ih =>
    have hhd := hb hd (List.mem_cons_self hd rest)
    have hrest : ∀ dc ∈ rest, 1 ≤ dc.quantity ∧ dc.quantity ≤ 3 :=
      fun x hx => hb x (List.mem_cons_of_mem hd hx)
    cases hh : (hd.card.id == i) with
    | true =>
      cases hra : (ra || hd.quantity == 1) with
      | true =>
        simp only [removeCardFromArray, hh, if_true, hra]
        exact hrest
      | false =>
        have hne1 : ¬ hd.quantity = 1 := by
          have : (hd.quantity == 1) = false := by
            cases hq : (hd.quantity == 1) with
            | true => rw [hq] at hra; simp at hra
            | false => rfl
          simpa using this
        simp only [removeCardFromArray, hh, if_true, hra, Bool.false_eq_true,
          if_false]
        intro dc hdc
        rcases (by simpa using hdc :
            dc = { hd with quantity := hd.quantity - 1 } ∨ dc ∈ rest) with h1 | h2
        · subst h1
          constructor
          · simp; omega
          · simp; omega
        · exact hrest dc h2
    | false =>
      simp only [removeCardFromArray, hh, Bool.false_eq_true, if_false]
      intro dc hdc
      rcases (by simpa using hdc :
          dc = hd ∨ dc ∈ removeCardFromArray i ra rest) with h1 | h2
      · subst h1
        exact hhd
      · exact ih hrest dc h2

theorem removeCardFromArray_ids_sublist (i : Int) (ra : Bool) (l : List DeckCard) :
    ((removeCardFromArray i ra l).map (fun dc => dc.card.id)).Sublist
      (l.map (fun dc => dc.card.id)) := by
  induction l with
  | nil => simp [removeCardFromArray]
  | cons hd rest ih =>
    cases hh : (hd.card.id == i) with
    | true =>
      cases hra : (ra || hd.quantity == 1) with
      | true =>
        simp only [removeCardFromArray, hh, if_true, hra, List.map_cons]
        exact List.Sublist.cons _ (List.Sublist.refl _)
      | false =>
        simp only [removeCardFromArray, hh, if_true, hra, Bool.false_eq_true,
          if_false, List.map_cons]
        exact List.Sublist.cons₂ _ (List.Sublist.refl _)
    | false =>
      simp only [removeCardFromArray, hh, Bool.false_eq_true, if_false,
        List.map_cons]
      exact List.Sublist.cons₂ _ ih

theorem canAddCard_true_facts (d : DeckState) (card : Card) (t : DeckTypeValue)
    (h : (canAddCard d card (some t)).canAdd = true) :
    getTotalCardsInDeck d t < getDeckLimit t ∧
    ∀ ec, (getDeckArray d t).find? (fun dc => dc.card.id == card.id) = some ec →
      ec.quantity < 3 := by
  revert h
  simp only [canAddCard, Option.getD_some]
  by_cases hcap : getTotalCardsInDeck d t ≥ getDeckLimit t
  · simp [hcap]
  · rw [if_neg hcap]
    cases hfind : (getDeckArray d t).find? (fun dc => dc.card.id == card.id) with
    | none =>
      intro _
      exact ⟨not_le.mp hcap, by intro ec h; cases h⟩
    | some ec =>
      by_cases hq : ec.quantity ≥ 3
      · simp [hq]
      · intro _
        refine ⟨not_le.mp hcap, ?_⟩
        intro ec' h'
        have : ec = ec' := by injection h'
        subst this
        exact not_le.mp hq

theorem zoneOk_nil (cap : Int) (h : 0 ≤ cap) : zoneOk [] cap := by
  refine ⟨by simpa [sumQ] using h, by simp, by simp⟩

theorem initialDeck_invariant : DeckInvariant initialDeck := by
  refine ⟨zoneOk_nil 60 (by norm_num), zoneOk_nil 15 (by norm_num),
    zoneOk_nil 15 (by norm_num)⟩

theorem addCard_state_none (pts : String → Int) (card : Card)
    (dt : Option DeckTypeValue) (d : DeckState) (t : DeckTypeValue)
    (hT : dt.getD (getCardDeckType card) = t)
    (hv : (canAddCard d card (some t)).canAdd = true)
    (hfind : findCardInDeck card.id t d = none) :
    (addCard pts card dt d).2.1 =
      setDeckArray d t (getDeckArray d t ++ [{ card := card, quantity := 1 }]) := by
  simp [addCard, hT, hv, hfind]

theorem addCard_state_some (pts : String → Int) (card : Card)
    (dt : Option DeckTypeValue) (d : DeckState) (t : DeckTypeValue) (ec : DeckCard)
    (hT : dt.getD (getCardDeckType card) = t)
    (hv : (canAddCard d card (some t)).canAdd = true)
    (hfind : findCardInDeck card.id t d = some ec) :
    (addCard pts card dt d).2.1 =
      setDeckArray d t (bumpFirst card.id (getDeckArray d t)) := by
  simp [addCard, hT, hv, hfind]

theorem addCard_state_fail (pts : String → Int) (card : Card)
    (dt : Option DeckTypeValue) (d : DeckState) (t : DeckTypeValue)
    (hT : dt.getD (getCardDeckType card) = t)
    (hv : (canAddCard d card (some t)).canAdd = false) :
    (addCard pts card dt d).2.1 = d := by
  simp [addCard, hT, hv]

theorem addCard_inv (pts : String → Int) (card : Card) (dt : Option DeckTypeValue)
    (d : DeckState) (h : DeckInvariant d) :
    DeckInvariant (addCard pts card dt d).2.1 := by
  obtain ⟨t, hT⟩ : ∃ t, dt.getD (getCardDeckType card) = t := ⟨_, rfl⟩
  cases hv : (canAddCard d card (some t)).canAdd with
  | false => rw [addCard_state_fail pts card dt d t hT hv]; exact h
  | true =>
    obtain ⟨hcap, hcop⟩ := canAddCard_true_facts d card t hv
    rw [getTotalCardsInDeck_eq_sumQ] at hcap
    rw [deckInvariant_iff] at h
    cases hfind : findCardInDeck card.id t d with
    | some ec =>
      have hfind' : (getDeckArray d t).find? (fun dc => dc.card.id == card.id) =
          some ec := hfind
      rw [addCard_state_some pts card dt d t ec hT hv hfind, deckInvariant_iff]
      intro t'
      by_cases htt : t' = t
      · subst htt
        rw [getDeckArray_setDeckArray_self]
        obtain ⟨hs, hbnd, hnd⟩ := h t'
        refine ⟨?_, ?_, ?_⟩
        · rw [bumpFirst_sumQ _ _ (by simp [hfind'])]
          omega
        · exact bumpFirst_bounds card.id _ ec hfind' (hcop ec hfind') hbnd
        · rw [bumpFirst_map_id]
          exact hnd
      · rw [getDeckArray_setDeckArray_ne _ _ _ _ htt]
        exact h t'
    | none =>
      have hfind' : (getDeckArray d t).find? (fun dc => dc.card.id == card.id) =
          none := hfind
      have hnotin : ∀ dc ∈ getDeckArray d t, dc.card.id ≠ card.id := by
        intro dc hdc
        have := List.find?_eq_none.mp hfind' dc hdc
        simpa using this
      rw [addCard_state_none pts card dt d t hT hv hfind, deckInvariant_iff]
      intro t'
      by_cases htt : t' = t
      · subst htt
        rw [getDeckArray_setDeckArray_self]
        obtain ⟨hs, hbnd, hnd⟩ := h t'
        refine ⟨?_, ?_, ?_⟩
        · rw [sumQ_append, sumQ_cons, sumQ_nil]
          simp only []
          omega
        · intro dc hdc
          rcases List.mem_append.mp hdc with h1 | h2
          · exact hbnd dc h1
          · rcases List.mem_singleton.mp h2 with rfl
            exact ⟨by norm_num, by norm_num⟩
        · rw [List.map_append]
          simp only [List.map_cons, List.map_nil]
          rw [List.nodup_append]
          refine ⟨hnd, List.nodup_singleton _, ?_⟩
          intro x hx
          simp only [List.mem_singleton]
          intro hx1
          subst hx1
          rcases List.mem_map.mp hx with ⟨dc, hdc, hid⟩
          exact hnotin dc hdc hid
      · rw [getDeckArray_setDeckArray_ne _ _ _ _ htt]
        exact h t'

theorem removeCard_inv (pts : String → Int) (cardId : Int) (t : DeckTypeValue)
    (ra : Bool) (d : DeckState) (h : DeckInvariant d) :
    DeckInvariant (removeCard pts cardId t ra d).2.1 := by
  cases hany : (getDeckArray d t).any (fun dc => dc.card.id == cardId) with
  | false =>
    have hstate : (removeCard pts cardId t ra d).2.1 = d := by
      simp [removeCard, hany]
    rw [hstate]; exact h
  | true =>
    have hstate : (removeCard pts cardId t ra d).2.1 =
        setDeckArray d t (removeCardFromArray cardId ra (getDeckArray d t)) := by
      simp [removeCard, hany]
    rw [hstate]
    rw [deckInvariant_iff] at h ⊢
    intro t'
    by_cases htt : t' = t
    · subst htt
      rw [getDeckArray_setDeckArray_self]
      obtain ⟨hs, hbnd, hnd⟩ := h t'
      refine ⟨?_, removeCardFromArray_bounds cardId ra _ hbnd, ?_⟩
      · have := removeCardFromArray_sumQ_le cardId ra (getDeckArray d t')
          (fun x hx => (hbnd x hx).1)
        omega
      · exact List.Nodup.sublist (removeCardFromArray_ids_sublist cardId ra _) hnd
    · rw [getDeckArray_setDeckArray_ne _ _ _ _ htt]
      exact h t'

theorem applyOp_inv (pts : String → Int) (d : DeckState) (op : Op)
    (h : DeckInvariant d) : DeckInvariant (applyOp pts d op) := by
  cases op with
  | add card dt => exact addCard_inv pts card dt d h
  | addById i dt =>
    show DeckInvariant (addCardById pts i dt d).2.1
    cases hfind : (d.mainDeck ++ d.extraDeck ++ d.sideDeck).find?
        (fun item => item.card.id == i) with
    | none =>
      have hstate : (addCardById pts i dt d).2.1 = d := by
        simp only [addCardById]
        rw [hfind]
      rw [hstate]; exact h
    | some dc =>
      have hstate : (addCardById pts i dt d).2.1 =
          (addCard pts dc.card (some dt) d).2.1 := by
        simp only [addCardById]
        rw [hfind]
      rw [hstate]
      exact addCard_inv pts dc.card (some dt) d h
  | remove i dt ra => exact removeCard_inv pts i dt ra d h
  | clearZone dt =>
    show DeckInvariant (setDeckArray d dt [])
    rw [deckInvariant_iff]
    intro t'
    by_cases htt : t' = dt
    · subst htt
      rw [getDeckArray_setDeckArray_self]
      exact zoneOk_nil _ (by cases t' <;> norm_num [getDeckLimit])
    · rw [getDeckArray_setDeckArray_ne _ _ _ _ htt]
      exact (deckInvariant_iff d).mp h t'
  | clearAll =>
    exact ⟨zoneOk_nil 60 (by norm_num), zoneOk_nil 15 (by norm_num),
      zoneOk_nil 15 (by norm_num)⟩
  | rename n =>
    exact h

/-- C1: starting from the empty deck, after any sequence of the mutating
operations `addCard`, `addCardById`, `removeCard`, `clearDeck`,
`clearAllDecks`, `setDeckName`, every zone's quantities sum to at most its
capacity (Main 60, Extra 15, Side 15), every entry's quantity lies in
`[1, 3]`, and no two entries of a zone share a card id. -/
theorem c1_invariant (pts : String → Int) (ops : List Op) :
    DeckInvariant (runOps pts ops) := by
  have aux : ∀ (l : List Op) (d : DeckState), DeckInvariant d →
      DeckInvariant (l.foldl (applyOp pts) d) := by
    intro l
    induction l with
    | nil => intro d h; exact h
    | cons op rest ih =>
      intro d h
      exact ih _ (applyOp_inv pts d op h)
  exact aux ops initialDeck initialDeck_invariant

/-! ## C7: what kind of copy the notified snapshot is

JS objects and arrays live on a heap; `{ ...this.deck, genesysPoints }`
builds a fresh top-level object whose zone fields hold the *same array
references* as the engine's internal `deck`.  To reason about that
aliasing, zone arrays are modelled as cells of a store addressed by `Nat`,
and a deck object holds the addresses of its three zone arrays. -/

/-- The heap of zone arrays. -/
structure Store where
  cells : List (List DeckCard)
deriving Repr

/-- Reading the array behind a reference. -/
def Store.read (st : Store) (r : Nat) : List DeckCard :=
  st.cells.getD r []

/-- In-place mutation of the array behind a reference. -/
def Store.write (st : Store) (r : Nat) (a : List DeckCard) : Store :=
  { cells := st.cells.set r a }

/-- A `DeckState` object at heap level: three array references plus the
value fields. -/
structure DeckObj where
  mainRef : Nat
  extraRef : Nat
  sideRef : Nat
  name : Option String
  genesysPoints : Option Int
deriving Repr

/-- The value-level `DeckState` an object denotes under a store. -/
def viewDeck (st : Store) (o : DeckObj) : DeckState :=
  { mainDeck := st.read o.mainRef, extraDeck := st.read o.extraRef,
    sideDeck := st.read o.sideRef, name := o.name,
    genesysPoints := o.genesysPoints }

/-- `{ ...this.deck, genesysPoints: this.calculateGenesysPoints() }` at
heap level: the object spread copies the three array references and the
value fields into a fresh object. -/
def snapshotObj (pts : String → Int) (st : Store) (o : DeckObj) : DeckObj :=
  { o with genesysPoints := some (calculateGenesysPoints pts (viewDeck st o)) }

/-- A listener mutating the received snapshot's main zone list in place
(`snapshot.mainDeck.push(entry)`). -/
def listenerPush (st : Store) (snap : DeckObj) (entry : DeckCard) : Store :=
  st.write snap.mainRef (st.read snap.mainRef ++ [entry])

/-- A fresh engine heap: three distinct empty zone arrays. -/
def freshStore : Store := { cells := [[], [], []] }

/-- The engine object over `freshStore`. -/
def engineObj : DeckObj :=
  { mainRef := 0, extraRef := 1, sideRef := 2,
    name := some "My Deck", genesysPoints := none }

/-- A scoring table giving every name one point. -/
def pts1 : String → Int := fun _ => 1

/-- C7 counterexample: a listener that pushes an entry into the snapshot
object it received changes the engine's own state — the engine's score
over its internal deck differs afterwards, so the snapshot is not a copy
that isolates the engine's zone sequences. -/
theorem c7_counterexample :
    getGenesysPoints pts1
        (viewDeck
          (listenerPush freshStore (snapshotObj pts1 freshStore engineObj)
            { card := monsterSample, quantity := 1 })
          engineObj) ≠
      getGenesysPoints pts1 (viewDeck freshStore engineObj) := by
  decide

/-- C7 amended: the snapshot handed to listeners (and returned by
`getDeckState`) is only a top-level copy: it is a fresh object, but its
three zone fields hold the engine's own array references, so an in-place
mutation a listener performs through a snapshot zone list (here: pushing
an entry into the main list) is visible in the engine's subsequent
state. -/
theorem c7_snapshot_shares_zone_arrays (pts : String → Int) (st : Store)
    (o : DeckObj) (entry : DeckCard) (h : o.mainRef < st.cells.length) :
    (snapshotObj pts st o).mainRef = o.mainRef ∧
    (snapshotObj pts st o).extraRef = o.extraRef ∧
    (snapshotObj pts st o).sideRef = o.sideRef ∧
    (viewDeck (listenerPush st (snapshotObj pts st o) entry) o).mainDeck =
      (viewDeck st o).mainDeck ++ [entry] := by
  refine ⟨rfl, rfl, rfl, ?_⟩
  show (listenerPush st (snapshotObj pts st o) entry).read o.mainRef =
    st.read o.mainRef ++ [entry]
  show (st.write o.mainRef (st.read o.mainRef ++ [entry])).read o.mainRef =
    st.read o.mainRef ++ [entry]
  simp [Store.read, Store.write, List.getD, List.getElem?_set_self, h]

/-- Closed instantiation of the C7 amendment. -/
theorem c7_snapshot_shares_zone_arrays_witness :
    (snapshotObj pts1 freshStore engineObj).mainRef = engineObj.mainRef ∧
    (snapshotObj pts1 freshStore engineObj).extraRef = engineObj.extraRef ∧
    (snapshotObj pts1 freshStore engineObj).sideRef = engineObj.sideRef ∧
    (viewDeck
        (listenerPush freshStore (snapshotObj pts1 freshStore engineObj)
          { card := monsterSample, quantity := 1 })
        engineObj).mainDeck =
      (viewDeck freshStore engineObj).mainDeck ++
        [{ card := monsterSample, quantity := 1 }] :=
  c7_snapshot_shares_zone_arrays pts1 freshStore engineObj
    { card := monsterSample, quantity := 1 } (by decide)

/-! ## C8: multiplicity collapsing in `buildDeckSectionFromIds` -/

/-- Spec-side description of "ids in first-occurrence order". -/
def firstOccur : List Int → List Int
  | [] => []
  | i :: rest => i :: (firstOccur rest).filter (fun j => j ≠ i)

/-- Placeholder card for stating resolved results (never reached when the
catalog resolves every id). -/
def anyCard : Card := { id := 0, name := "", ctype := "" }

theorem mem_of_mem_firstOccur (i : Int) (ids : List Int)
    (h : i ∈ firstOccur ids) : i ∈ ids := by
  induction ids with
  | nil => simpa [firstOccur] using h
  | cons j rest ih =>
    simp only [firstOccur, List.mem_cons] at h
    rcases h with h1 | h2
    · exact h1 ▸ List.mem_cons_self j rest
    · exact List.mem_cons_of_mem _ (ih (List.mem_of_mem_filter h2))

theorem mem_firstOccur_of_mem (i : Int) (ids : List Int) (h : i ∈ ids) :
    i ∈ firstOccur ids := by
  induction ids with
  | nil => cases h
  | cons j rest ih =>
    by_cases hij : i = j
    · subst hij
      exact List.mem_cons_self i (List.filter _ (firstOccur rest))
    · rcases List.mem_cons.mp h with h1 | hm
      · exact absurd h1 hij
      · exact List.mem_cons_of_mem _
          (List.mem_filter.mpr ⟨ih hm, by simp [hij]⟩)

theorem firstSeenOrder_go (ids : List Int) (acc : List Int) :
    ids.foldl (fun order i => if order.contains i then order else order ++ [i]) acc =
      acc ++ (firstOccur ids).filter (fun i => !acc.contains i) := by
  induction ids generalizing acc with
  | nil => simp [firstOccur]
  | cons j rest ih =>
    simp only [List.foldl_cons, firstOccur]
    by_cases hc : acc.contains j = true
    · rw [if_pos hc, ih,
        List.filter_cons_of_neg (by simp only [hc, Bool.not_true]; decide)]
      congr 1
      rw [List.filter_filter]
      refine List.filter_congr ?_
      intro x hx
      by_cases hxj : x = j
      · subst hxj
        have hmem : x ∈ acc := by simpa using hc
        simp [hmem]
      · simp [hxj]
    · have hc' : acc.contains j = false := by
        simpa using hc
      rw [if_neg hc, ih,
        List.filter_cons_of_pos (by simp only [hc', Bool.not_false])]
      rw [List.append_assoc]
      congr 1
      show [j] ++ (firstOccur rest).filter (fun i => !(acc ++ [j]).contains i) =
        j :: ((firstOccur rest).filter (fun j' => j' ≠ j)).filter
          (fun i => !acc.contains i)
      rw [List.singleton_append, List.filter_filter]
      congr 1
      refine List.filter_congr ?_
      intro x hx
      by_cases hxj : x = j
      · subst hxj
        simp
      · simp [hxj, List.elem_eq_mem, List.mem_append]

theorem firstSeenOrder_eq_firstOccur (ids : List Int) :
    firstSeenOrder ids = firstOccur ids := by
  have h := firstSeenOrder_go ids []
  simpa [firstSeenOrder] using h

theorem resolveOrder_ok (lookup : Int → Option Card) (qty : Int → Nat)
    (order : List Int) (h : ∀ i ∈ order, lookup i ≠ none) :
    resolveOrder lookup qty order =
      Except.ok (order.map (fun i =>
        { card := (lookup i).getD anyCard, quantity := (qty i : Int) })) := by
  induction order with
  | nil => rfl
  | cons i rest ih =>
    cases hl : lookup i with
    | none => exact absurd hl (h i (List.mem_cons_self i rest))
    | some c =>
      have ihr := ih (fun x hx => h x (List.mem_cons_of_mem _ hx))
      simp only [resolveOrder, hl, ihr, List.map_cons, Option.getD_some]

/-- C8: for every per-zone id list the catalog can fully resolve,
`buildDeckSectionFromIds` returns one `DeckCard` per distinct id, in
first-occurrence order, whose quantity is the id's full occurrence count
in the list — with no clamping to the 3-copy cap. -/
theorem c8_collapse_multiplicities (lookup : Int → Option Card) (ids : List Int)
    (h : ∀ i ∈ ids, lookup i ≠ none) :
    buildDeckSectionFromIds lookup ids =
      Except.ok ((firstOccur ids).map (fun i =>
        { card := (lookup i).getD anyCard, quantity := (ids.count i : Int) })) := by
  unfold buildDeckSectionFromIds
  rw [firstSeenOrder_eq_firstOccur]
  exact resolveOrder_ok lookup _ _ (fun i hi => h i (mem_of_mem_firstOccur i ids hi))

/-- A one-card catalog for closed instantiations. -/
def card7 : Card := { id := 7, name := "Seven", ctype := "Spell Card" }

/-- Catalog resolving only id 7. -/
def lookup7 : Int → Option Card := fun i => if i == 7 then some card7 else none

/-- Closed instantiation of C8: an id occurring five times yields a single
entry with quantity 5 (beyond the 3-copy cap). -/
theorem c8_collapse_multiplicities_witness :
    buildDeckSectionFromIds lookup7 [7, 7, 7, 7, 7] =
      Except.ok [{ card := card7, quantity := 5 }] := by
  have h := c8_collapse_multiplicities lookup7 [7, 7, 7, 7, 7] (by decide)
  rw [h]
  rfl

/-! ## C5: imports referencing an unknown id fail wholesale -/

theorem resolveOrder_error (lookup : Int → Option Card) (qty : Int → Nat)
    (order : List Int) (h : ∃ i ∈ order, lookup i = none) :
    ∃ i ∈ order, lookup i = none ∧
      resolveOrder lookup qty order =
        Except.error ("Card with ID " ++ toString i ++
          " could not be found while importing the deck.") := by
  induction order with
  | nil =>
    rcases h with ⟨i, hi, _⟩
    cases hi
  | cons j rest ih =>
    cases hl : lookup j with
    | none =>
      exact ⟨j, List.mem_cons_self j rest, hl, by simp [resolveOrder, hl]⟩
    | some c =>
      have h' : ∃ i ∈ rest, lookup i = none := by
        rcases h with ⟨i, hi, hnone⟩
        rcases List.mem_cons.mp hi with h1 | hm
        · subst h1
          rw [hl] at hnone
          cases hnone
        · exact ⟨i, hm, hnone⟩
      rcases ih h' with ⟨i, hi, hnone, herr⟩
      exact ⟨i, List.mem_cons_of_mem _ hi, hnone,
        by simp only [resolveOrder, hl, herr]⟩

theorem buildDeckSection_error (lookup : Int → Option Card) (ids : List Int)
    (h : ∃ i ∈ ids, lookup i = none) :
    ∃ i ∈ ids, lookup i = none ∧
      buildDeckSectionFromIds lookup ids =
        Except.error ("Card with ID " ++ toString i ++
          " could not be found while importing the deck.") := by
  unfold buildDeckSectionFromIds
  rw [firstSeenOrder_eq_firstOccur]
  rcases h with ⟨i, hi, hnone⟩
  rcases resolveOrder_error lookup (fun i => ids.count i) (firstOccur ids)
      ⟨i, mem_firstOccur_of_mem i ids hi, hnone⟩ with ⟨i', hi', hnone', herr⟩
  exact ⟨i', mem_of_mem_firstOccur i' ids hi', hnone', herr⟩

/-- C5: whenever the parsed deck-list text contains a card id the catalog
cannot resolve, the whole deserialization fails with the error naming a
missing id — no deck state is produced — and the import flow leaves the
engine's state untouched. -/
theorem c5_failed_import (pts : String → Int) (lookup : Int → Option Card)
    (content : String) (engine : DeckState)
    (h : ∃ i ∈ allParsedIds (parseYdkLines content), lookup i = none) :
    ∃ i ∈ allParsedIds (parseYdkLines content), lookup i = none ∧
      parseYdkContent lookup content =
        Except.error ("Card with ID " ++ toString i ++
          " could not be found while importing the deck.") ∧
      importFlow pts lookup content engine = engine := by
  by_cases hm : ∃ i ∈ (parseYdkLines content).mainIds, lookup i = none
  · rcases buildDeckSection_error lookup _ hm with ⟨i, hi, hnone, herr⟩
    have hparse : parseYdkContent lookup content =
        Except.error ("Card with ID " ++ toString i ++
          " could not be found while importing the deck.") := by
      simp only [parseYdkContent, herr]
    exact ⟨i, List.mem_append_left _ (List.mem_append_left _ hi), hnone, hparse,
      by simp only [importFlow, hparse]⟩
  · push_neg at hm
    have hmain := c8_collapse_multiplicities lookup (parseYdkLines content).mainIds
      (fun i hi => hm i hi)
    by_cases he : ∃ i ∈ (parseYdkLines content).extraIds, lookup i = none
    · rcases buildDeckSection_error lookup _ he with ⟨i, hi, hnone, herr⟩
      have hparse : parseYdkContent lookup content =
          Except.error ("Card with ID " ++ toString i ++
            " could not be found while importing the deck.") := by
        simp only [parseYdkContent, hmain, herr]
      exact ⟨i, List.mem_append_left _ (List.mem_append_right _ hi), hnone, hparse,
        by simp only [importFlow, hparse]⟩
    · push_neg at he
      have hextra := c8_collapse_multiplicities lookup
        (parseYdkLines content).extraIds (fun i hi => he i hi)
      have hs : ∃ i ∈ (parseYdkLines content).sideIds, lookup i = none := by
        rcases h with ⟨i, hi, hnone⟩
        rcases List.mem_append.mp hi with h1 | h2
        · rcases List.mem_append.mp h1 with h3 | h4
          · exact absurd hnone (hm i h3)
          · exact absurd hnone (he i h4)
        · exact ⟨i, h2, hnone⟩
      rcases buildDeckSection_error lookup _ hs with ⟨i, hi, hnone, herr⟩
      have hparse : parseYdkContent lookup content =
          Except.error ("Card with ID " ++ toString i ++
            " could not be found while importing the deck.") := by
        simp only [parseYdkContent, hmain, hextra, herr]
      exact ⟨i, List.mem_append_right _ hi, hnone, hparse,
        by simp only [importFlow, hparse]⟩

/-- Closed instantiation of C5 over the one-line deck list `"123"` and the
empty catalog. -/
theorem c5_failed_import_witness :
    ∃ i ∈ allParsedIds (parseYdkLines "123"),
      (fun _ : Int => (none : Option Card)) i = none ∧
      parseYdkContent (fun _ => none) "123" =
        Except.error ("Card with ID " ++ toString i ++
          " could not be found while importing the deck.") ∧
      importFlow pts0 (fun _ => none) "123" initialDeck = initialDeck :=
  c5_failed_import pts0 (fun _ => none) "123" initialDeck ⟨123, by decide, rfl⟩

/-! ## C9: what each input line contributes -/

/-- Appending a parsed id to the zone the parser is currently targeting
(the `switch (currentSection)` block of the line loop). -/
def appendId (acc : ParseAcc) (n : Int) : ParseAcc :=
  match acc.currentSection with
  | .extra => { acc with extraIds := acc.extraIds ++ [n] }
  | .side => { acc with sideIds := acc.sideIds ++ [n] }
  | .main => { acc with mainIds := acc.mainIds ++ [n] }

/-- The claim's notion of a line that "parses as a base-10 integer": the
whole string is an optionally signed nonempty digit run. -/
def isStrictIntString (s : List Char) : Bool :=
  match s with
  | '-' :: t => !t.isEmpty && t.all Char.isDigit
  | '+' :: t => !t.isEmpty && t.all Char.isDigit
  | t => !t.isEmpty && t.all Char.isDigit

theorem takeWhile_digits_append (ds rest : List Char)
    (hall : ds.all Char.isDigit = true)
    (hrest : ∀ c cs, rest = c :: cs → c.isDigit = false) :
    (ds ++ rest).takeWhile Char.isDigit = ds := by
  induction ds with
  | nil =>
    cases rest with
    | nil => rfl
    | cons c t => simp [List.takeWhile_cons, hrest c t rfl]
  | cons d ds' ih =>
    rw [List.all_cons, Bool.and_eq_true] at hall
    rcases hall with ⟨hd, hall'⟩
    simp [List.takeWhile_cons, hd, ih hall']

theorem digit_not_sign (c : Char) (h : c.isDigit = true) : c ≠ '-' ∧ c ≠ '+' := by
  constructor <;> rintro rfl <;> exact absurd h (by decide)

/-- C9 counterexample: the line `"12abc"` is not a base-10 integer, yet it
contributes card id 12 to the main zone — `Number.parseInt` keeps the
maximal leading digit run instead of rejecting the line. -/
theorem c9_counterexample :
    (parseYdkLines "12abc").mainIds = [12] ∧
    isStrictIntString "12abc".data = false := by
  decide

/-- C9 amended: the line loop trims each line and then: a blank line is
ignored; a line whose trimmed form starts with `'#'` or `'!'` is a
metadata/section marker contributing no id (with `'!side'`, matched on the
lowercased line, switching to the side zone); every other line contributes
`Number.parseInt(line, 10)` — the integer denoted by the maximal leading
optionally-signed digit run — to the current zone when that run is
nonempty, and is silently skipped otherwise.  A line with no leading
(sign+)digit run never contributes, but a non-integer line with such a run
does. -/
theorem c9_line_handling (acc : ParseAcc) (rawLine : List Char) :
    (trimChars rawLine = [] → parseLine acc rawLine = acc) ∧
    (∀ cs, trimChars rawLine = '#' :: cs →
      (parseLine acc rawLine).mainIds = acc.mainIds ∧
      (parseLine acc rawLine).extraIds = acc.extraIds ∧
      (parseLine acc rawLine).sideIds = acc.sideIds) ∧
    (∀ cs, trimChars rawLine = '!' :: cs →
      (parseLine acc rawLine).mainIds = acc.mainIds ∧
      (parseLine acc rawLine).extraIds = acc.extraIds ∧
      (parseLine acc rawLine).sideIds = acc.sideIds ∧
      (parseLine acc rawLine).currentSection =
        (if beginsWith "!side".data (lowerChars (trimChars rawLine)) = true
         then DeckTypeValue.side else acc.currentSection)) ∧
    (∀ c cs, trimChars rawLine = c :: cs → c ≠ '#' → c ≠ '!' →
      parseLine acc rawLine =
        (match parseIntBase10 (trimChars rawLine) with
         | some n => appendId acc n
         | none => acc)) ∧
    (∀ ds rest, ds ≠ [] → ds.all Char.isDigit = true →
      (∀ c cs, rest = c :: cs → c.isDigit = false) →
      parseIntBase10 (ds ++ rest) = some (digitsVal ds : Int) ∧
      parseIntBase10 ('-' :: (ds ++ rest)) = some (-(digitsVal ds : Int)) ∧
      parseIntBase10 ('+' :: (ds ++ rest)) = some (digitsVal ds : Int)) ∧
    (∀ t, (∀ c cs, t = c :: cs → c.isDigit = false) →
      parseIntBase10 ('-' :: t) = none ∧
      parseIntBase10 ('+' :: t) = none ∧
      (∀ c cs, t = c :: cs → c ≠ '-' → c ≠ '+' → parseIntBase10 t = none)) := by
  refine ⟨?_, ?_, ?_, ?_, ?_, ?_⟩
  · intro h
    simp only [parseLine]
    rw [h]
    simp
  · intro cs hc
    simp only [parseLine]
    rw [hc]
    rw [if_neg (by simp)]
    rw [if_pos (by simp [beginsWith])]
    split
    · simp
    · split
      · simp
      · split <;> simp
  · intro cs hc
    simp only [parseLine]
    rw [hc]
    rw [if_neg (by simp)]
    rw [if_neg (by simp [beginsWith])]
    rw [if_pos (by simp [beginsWith])]
    split <;> exact ⟨rfl, rfl, rfl, rfl⟩
  · intro c cs hc hne1 hne2
    simp only [parseLine]
    rw [hc]
    rw [if_neg (by simp)]
    rw [if_neg (by simp [beginsWith, Ne.symm hne1])]
    rw [if_neg (by simp [beginsWith, Ne.symm hne2])]
    cases hpi : parseIntBase10 (c :: cs) with
    | none => rfl
    | some n =>
      cases hcur : acc.currentSection <;>
        simp only [appendId, hcur]
  · intro ds rest hne hall hrest
    have htw : (ds ++ rest).takeWhile Char.isDigit = ds :=
      takeWhile_digits_append ds rest hall hrest
    have hds : ds.isEmpty = false := by
      cases ds with
      | nil => exact absurd rfl hne
      | cons a b => rfl
    refine ⟨?_, ?_, ?_⟩
    · cases hd : ds with
      | nil => exact absurd hd hne
      | cons d ds' =>
        subst hd
        rw [List.all_cons, Bool.and_eq_true] at hall
        rcases hall with ⟨hdig, _⟩
        rcases digit_not_sign d hdig with ⟨hm, hp⟩
        show parseIntBase10 (d :: (ds' ++ rest)) = _
        simp only [parseIntBase10, if_neg hm, if_neg hp]
        rw [show d :: (ds' ++ rest) = (d :: ds') ++ rest from rfl, htw]
        simp [hds]
    · simp only [parseIntBase10, if_pos rfl, htw]
      simp [hds]
    · simp only [parseIntBase10]
      rw [if_neg (by decide), if_pos trivial, htw]
      simp [hds]
  · intro t ht
    have htw : t.takeWhile Char.isDigit = [] := by
      cases t with
      | nil => rfl
      | cons c cs => simp [List.takeWhile_cons, ht c cs rfl]
    refine ⟨?_, ?_, ?_⟩
    · simp [parseIntBase10, htw]
    · simp only [parseIntBase10]
      rw [if_neg (by decide), if_pos trivial, htw]
      rfl
    · intro c cs hcs hm hp
      subst hcs
      simp only [parseIntBase10, if_neg hm, if_neg hp]
      rw [show (c :: cs).takeWhile Char.isDigit = [] from htw]
      rfl

/-- Closed instantiation of the C9 amendment on the line `"42xyz"`. -/
theorem c9_line_handling_witness :
    parseLine initialAcc "42xyz".data =
      (match parseIntBase10 (trimChars "42xyz".data) with
       | some n => appendId initialAcc n
       | none => initialAcc) ∧
    parseIntBase10 ("42".data ++ "xyz".data) = some 42 := by
  constructor
  · exact (c9_line_handling initialAcc "42xyz".data).2.2.2.1 '4' "2xyz".data
      (by decide) (by decide) (by decide)
  · have h := ((c9_line_handling initialAcc "42xyz".data).2.2.2.2.1 "42".data
      "xyz".data (by decide) (by decide)
      (fun c cs hcs => by injection hcs with h1 _; rw [← h1]; decide)).1
    rw [h]
    decide

/-! ## C2: round-tripping serialize then deserialize -/

/-- The ten decimal digit characters. -/
def digits10 : List Char := ['0', '1', '2', '3', '4', '5', '6', '7', '8', '9']

theorem digitChar_mem (k : Nat) (h : k < 10) : digitChar k ∈ digits10 := by
  interval_cases k <;> decide

theorem digitChar_toNat (k : Nat) (h : k < 10) : (digitChar k).toNat = 48 + k := by
  interval_cases k <;> decide

theorem digits10_class (c : Char) (h : c ∈ digits10) :
    c.isDigit = true ∧ isSpaceChar c = false ∧ c ≠ '#' ∧ c ≠ '!' ∧
      c ≠ '-' ∧ c ≠ '+' := by
  fin_cases h <;> refine ⟨by decide, by decide, by decide, by decide, by decide, by decide⟩

theorem digitsVal_append_singleton (ds : List Char) (c : Char) :
    digitsVal (ds ++ [c]) = digitsVal ds * 10 + (c.toNat - 48) := by
  unfold digitsVal
  rw [List.foldl_append]
  rfl

theorem natDecimalAux_spec (fuel : Nat) :
    ∀ n, n < fuel →
      natDecimalAux fuel n ≠ [] ∧
      (∀ c ∈ natDecimalAux fuel n, c ∈ digits10) ∧
      digitsVal (natDecimalAux fuel n) = n := by
  induction fuel with
  | zero => intro n h; omega
  | succ f ih =>
    intro n h
    by_cases h10 : n < 10
    · simp only [natDecimalAux, if_pos h10]
      refine ⟨by simp, ?_, ?_⟩
      · intro c hc
        rw [List.mem_singleton] at hc
        subst hc
        exact digitChar_mem n h10
      · show digitsVal ([] ++ [digitChar n]) = n
        rw [digitsVal_append_singleton, digitChar_toNat n h10]
        show 0 * 10 + (48 + n - 48) = n
        omega
    · have hdiv : n / 10 < f := by omega
      obtain ⟨hne, hmem, hval⟩ := ih (n / 10) hdiv
      simp only [natDecimalAux, if_neg h10]
      refine ⟨by simp, ?_, ?_⟩
      · intro c hc
        rcases List.mem_append.mp hc with h1 | h2
        · exact hmem c h1
        · rw [List.mem_singleton] at h2
          subst h2
          exact digitChar_mem (n % 10) (Nat.mod_lt n (by norm_num))
      · rw [digitsVal_append_singleton, hval,
          digitChar_toNat (n % 10) (Nat.mod_lt n (by norm_num))]
        omega

theorem natDecimal_spec (n : Nat) :
    natDecimal n ≠ [] ∧ (∀ c ∈ natDecimal n, c ∈ digits10) ∧
      digitsVal (natDecimal n) = n :=
  natDecimalAux_spec (n + 1) n (Nat.lt_succ_self n)

theorem intDecimal_nonneg (i : Int) (h : 0 ≤ i) :
    intDecimal i = natDecimal i.toNat := by
  simp [intDecimal, not_lt.mpr h]

theorem intDecimal_neg (i : Int) (h : i < 0) :
    intDecimal i = '-' :: natDecimal (-i).toNat := by
  simp [intDecimal, h]

theorem takeWhile_all_digits (ds : List Char) (h : ∀ c ∈ ds, c.isDigit = true) :
    ds.takeWhile Char.isDigit = ds := by
  induction ds with
  | nil => rfl
  | cons c rest ih =>
    rw [List.takeWhile_cons, if_pos (h c (List.mem_cons_self c rest))]
    rw [ih (fun x hx => h x (List.mem_cons_of_mem c hx))]

theorem isEmpty_false_of_ne_nil (cs : List Char) (h : cs ≠ []) :
    cs.isEmpty = false := by
  cases cs with
  | nil => exact absurd rfl h
  | cons a b => rfl

/-- `Number.parseInt` recovers the id from its decimal rendering. -/
theorem parseIntBase10_intDecimal (i : Int) :
    parseIntBase10 (intDecimal i) = some i := by
  rcases lt_or_le i 0 with hneg | hpos
  · rw [intDecimal_neg i hneg]
    obtain ⟨hne, hmem, hval⟩ := natDecimal_spec (-i).toNat
    have htw : (natDecimal (-i).toNat).takeWhile Char.isDigit =
        natDecimal (-i).toNat :=
      takeWhile_all_digits _ (fun c hc => (digits10_class c (hmem c hc)).1)
    simp only [parseIntBase10, if_pos rfl, htw,
      isEmpty_false_of_ne_nil _ hne, Bool.false_eq_true, if_false]
    rw [hval]
    have hcast : ((-i).toNat : Int) = -i := Int.toNat_of_nonneg (by omega)
    rw [hcast]
    simp
  · rw [intDecimal_nonneg i hpos]
    obtain ⟨hne, hmem, hval⟩ := natDecimal_spec i.toNat
    cases hnd : natDecimal i.toNat with
    | nil => exact absurd hnd hne
    | cons c rest =>
      have hcmem : c ∈ digits10 := hmem c (by rw [hnd]; exact List.mem_cons_self c rest)
      obtain ⟨hdig, _, _, _, hm, hp⟩ := digits10_class c hcmem
      have htw : (c :: rest).takeWhile Char.isDigit = c :: rest := by
        rw [← hnd]
        exact takeWhile_all_digits _ (fun x hx => (digits10_class x (hmem x hx)).1)
      simp only [parseIntBase10, if_neg hm, if_neg hp, htw]
      rw [isEmpty_false_of_ne_nil _ (by simp), ← hnd, hval]
      simp [Int.toNat_of_nonneg hpos]

theorem intDecimal_chars (i : Int) :
    ∀ c ∈ intDecimal i, c = '-' ∨ c ∈ digits10 := by
  intro c hc
  rcases lt_or_le i 0 with hneg | hpos
  · rw [intDecimal_neg i hneg] at hc
    rcases List.mem_cons.mp hc with h1 | h2
    · exact Or.inl h1
    · exact Or.inr ((natDecimal_spec (-i).toNat).2.1 c h2)
  · rw [intDecimal_nonneg i hpos] at hc
    exact Or.inr ((natDecimal_spec i.toNat).2.1 c hc)

theorem intDecimal_no_space (i : Int) :
    ∀ c ∈ intDecimal i, isSpaceChar c = false := by
  intro c hc
  rcases intDecimal_chars i c hc with h | h
  · subst h; decide
  · exact (digits10_class c h).2.1

theorem intDecimal_ne_nil (i : Int) : intDecimal i ≠ [] := by
  rcases lt_or_le i 0 with hneg | hpos
  · rw [intDecimal_neg i hneg]; simp
  · rw [intDecimal_nonneg i hpos]; exact (natDecimal_spec i.toNat).1

theorem intDecimal_head_not_marker (i : Int) :
    ∃ c cs, intDecimal i = c :: cs ∧ c ≠ '#' ∧ c ≠ '!' := by
  cases hc : intDecimal i with
  | nil => exact absurd hc (intDecimal_ne_nil i)
  | cons c cs =>
    have hmem : c = '-' ∨ c ∈ digits10 :=
      intDecimal_chars i c (by rw [hc]; exact List.mem_cons_self c cs)
    have h1 : c ≠ '#' := by
      rcases hmem with h | h
      · subst h; decide
      · exact (digits10_class c h).2.2.1
    have h2 : c ≠ '!' := by
      rcases hmem with h | h
      · subst h; decide
      · exact (digits10_class c h).2.2.2.1
    exact ⟨c, cs, rfl, h1, h2⟩

/-! ### trim identities -/

theorem dropWhile_eq_self_of_head (p : Char → Bool) (cs : List Char)
    (h : ∀ c, cs.head? = some c → p c = false) : cs.dropWhile p = cs := by
  cases cs with
  | nil => rfl
  | cons c rest => simp [List.dropWhile_cons, h c rfl]

theorem trimChars_eq_self_of_ends (cs : List Char)
    (hh : ∀ c, cs.head? = some c → isSpaceChar c = false)
    (hl : ∀ c, cs.getLast? = some c → isSpaceChar c = false) :
    trimChars cs = cs := by
  unfold trimChars
  rw [dropWhile_eq_self_of_head _ _ hh]
  rw [dropWhile_eq_self_of_head _ _
    (by intro c h; rw [List.head?_reverse] at h; exact hl c h)]
  exact List.reverse_reverse cs

theorem trimEndChars_eq_self_of_last (cs : List Char)
    (hl : ∀ c, cs.getLast? = some c → isSpaceChar c = false) :
    trimEndChars cs = cs := by
  unfold trimEndChars
  rw [dropWhile_eq_self_of_head _ _
    (by intro c h; rw [List.head?_reverse] at h; exact hl c h)]
  exact List.reverse_reverse cs

theorem mem_of_getLast?_eq_some {cs : List Char} {c : Char}
    (h : cs.getLast? = some c) : c ∈ cs := by
  rcases List.mem_getLast?_eq_getLast (Option.mem_def.mpr h) with ⟨hne, hc⟩
  rw [hc]
  exact List.getLast_mem hne

theorem trimChars_eq_self_of_all (cs : List Char)
    (h : ∀ c ∈ cs, isSpaceChar c = false) : trimChars cs = cs := by
  refine trimChars_eq_self_of_ends cs ?_ ?_
  · intro c hc
    exact h c (List.mem_of_mem_head? hc)
  · intro c hc
    exact h c (mem_of_getLast?_eq_some hc)

theorem dropWhile_head_of_eq_self (p : Char → Bool) (cs : List Char)
    (h : cs.dropWhile p = cs) :
    ∀ c, cs.head? = some c → p c = false := by
  intro c hc
  cases cs with
  | nil => cases hc
  | cons a rest =>
    injection hc with hc'
    subst hc'
    by_contra hp
    have hp' : p a = true := by
      cases hpc : p a with
      | true => rfl
      | false => exact absurd hpc hp
    rw [List.dropWhile_cons, if_pos hp'] at h
    have hlen := congrArg List.length h
    have hle : (rest.dropWhile p).length ≤ rest.length :=
      (List.dropWhile_suffix p).sublist.length_le
    simp at hlen
    omega

theorem trim_eq_self_parts (cs : List Char) (h : trimChars cs = cs) :
    cs.dropWhile isSpaceChar = cs ∧
      cs.reverse.dropWhile isSpaceChar = cs.reverse := by
  have hlen1 : (cs.dropWhile isSpaceChar).length ≤ cs.length :=
    (List.dropWhile_suffix isSpaceChar).sublist.length_le
  have hlen2 : ((cs.dropWhile isSpaceChar).reverse.dropWhile isSpaceChar).length ≤
      (cs.dropWhile isSpaceChar).length := by
    have h := (List.dropWhile_suffix (l := (cs.dropWhile isSpaceChar).reverse)
      isSpaceChar).sublist.length_le
    simpa using h
  have hlen0 : (trimChars cs).length =
      ((cs.dropWhile isSpaceChar).reverse.dropWhile isSpaceChar).length := by
    unfold trimChars
    rw [List.length_reverse]
  have heq : (trimChars cs).length = cs.length := by rw [h]
  have hd1 : cs.dropWhile isSpaceChar = cs :=
    ((List.dropWhile_suffix _).sublist).eq_of_length (by omega)
  refine ⟨hd1, ?_⟩
  have h2 : trimChars cs = (cs.reverse.dropWhile isSpaceChar).reverse := by
    unfold trimChars
    rw [hd1]
  rw [h] at h2
  have := congrArg List.reverse h2
  rw [List.reverse_reverse] at this
  exact this.symm

theorem clean_head_last (nm : List Char) (ht : trimChars nm = nm) :
    (∀ c, nm.head? = some c → isSpaceChar c = false) ∧
    (∀ c, nm.getLast? = some c → isSpaceChar c = false) := by
  obtain ⟨h1, h2⟩ := trim_eq_self_parts nm ht
  refine ⟨dropWhile_head_of_eq_self _ _ h1, ?_⟩
  intro c hc
  exact dropWhile_head_of_eq_self _ _ h2 c (by rw [List.head?_reverse]; exact hc)

/-! ### splitting the serialized text back into its lines -/

theorem splitLines_append_no_newline (l : List Char)
    (hl : ∀ c ∈ l, c ≠ '\n') :
    ∀ rest h t, splitLines rest = h :: t →
      splitLines (l ++ rest) = (l ++ h) :: t := by
  induction l with
  | nil =>
    intro rest h t hs
    simpa using hs
  | cons c l' ih =>
    intro rest h t hs
    have hc : c ≠ '\n' := hl c (List.mem_cons_self _ _)
    show splitLines (c :: (l' ++ rest)) = ((c :: l') ++ h) :: t
    simp only [splitLines, if_neg hc]
    rw [ih (fun x hx => hl x (List.mem_cons_of_mem _ hx)) rest h t hs]
    rfl

theorem splitLines_join (lines : List (List Char))
    (hnn : ∀ l ∈ lines, ∀ c ∈ l, c ≠ '\n') (hne : lines ≠ []) :
    splitLines (joinLines lines ++ ['\n']) = lines ++ [[]] := by
  induction lines with
  | nil => exact absurd rfl hne
  | cons l ls ih =>
    cases ls with
    | nil =>
      show splitLines (l ++ ['\n']) = [l, []]
      have hs : splitLines ['\n'] = [] :: [[]] := rfl
      rw [splitLines_append_no_newline l (hnn l (List.mem_cons_self _ _)) ['\n']
        [] [[]] hs]
      simp
    | cons l2 ls2 =>
      show splitLines ((l ++ '\n' :: joinLines (l2 :: ls2)) ++ ['\n']) =
        (l :: l2 :: ls2) ++ [[]]
      have hassoc : (l ++ '\n' :: joinLines (l2 :: ls2)) ++ ['\n'] =
          l ++ ('\n' :: (joinLines (l2 :: ls2) ++ ['\n'])) := by
        simp
      rw [hassoc]
      have hs2 : splitLines ('\n' :: (joinLines (l2 :: ls2) ++ ['\n'])) =
          [] :: ((l2 :: ls2) ++ [[]]) := by
        rw [show splitLines ('\n' :: (joinLines (l2 :: ls2) ++ ['\n'])) =
          [] :: splitLines (joinLines (l2 :: ls2) ++ ['\n']) from rfl]
        rw [ih (fun x hx => hnn x (List.mem_cons_of_mem _ hx)) (by simp)]
      rw [splitLines_append_no_newline l (hnn l (List.mem_cons_self _ _)) _
        [] ((l2 :: ls2) ++ [[]]) hs2]
      simp

theorem joinLines_ne_nil (l : List Char) (ls : List (List Char)) (h : l ≠ []) :
    joinLines (l :: ls) ≠ [] := by
  cases ls with
  | nil => exact h
  | cons l2 ls2 =>
    show l ++ '\n' :: joinLines (l2 :: ls2) ≠ []
    simp

theorem joinLines_getLast? (lines : List (List Char)) (hne : lines ≠ [])
    (hnn : ∀ l ∈ lines, l ≠ []) :
    ∃ l, lines.getLast? = some l ∧ (joinLines lines).getLast? = l.getLast? := by
  induction lines with
  | nil => exact absurd rfl hne
  | cons l ls ih =>
    cases ls with
    | nil => exact ⟨l, rfl, rfl⟩
    | cons l2 ls2 =>
      obtain ⟨l', hl', hj⟩ := ih (by simp)
        (fun x hx => hnn x (List.mem_cons_of_mem _ hx))
      refine ⟨l', ?_, ?_⟩
      · rw [← hl']
        exact (List.getLast?_cons_cons ..)
      · show (l ++ '\n' :: joinLines (l2 :: ls2)).getLast? = l'.getLast?
        rw [show ('\n' :: joinLines (l2 :: ls2)) = ['\n'] ++ joinLines (l2 :: ls2)
          from rfl]
        rw [← List.append_assoc]
        rw [List.getLast?_append_of_ne_nil _
          (joinLines_ne_nil l2 ls2 (hnn l2 (by simp)))]
        exact hj

theorem trimEnd_joinLines (lines : List (List Char)) (hne : lines ≠ [])
    (hnn : ∀ l ∈ lines, l ≠ [])
    (hlast : ∀ l ∈ lines, ∀ c, l.getLast? = some c → isSpaceChar c = false) :
    trimEndChars (joinLines lines) = joinLines lines := by
  obtain ⟨l, hl, hj⟩ := joinLines_getLast? lines hne hnn
  apply trimEndChars_eq_self_of_last
  intro c hc
  rw [hj] at hc
  have hlm : l ∈ lines := by
    rcases List.mem_getLast?_eq_getLast (Option.mem_def.mpr hl) with ⟨h1, h2⟩
    rw [h2]
    exact List.getLast_mem h1
  exact hlast l hlm c hc

/-! ### what the line loop does with each serialized line -/

theorem beginsWith_append_self (p x : List Char) : beginsWith p (p ++ x) = true := by
  induction p with
  | nil => rfl
  | cons c ps ih => simp [beginsWith, ih]

theorem parseLine_marker_main (acc : ParseAcc) :
    parseLine acc "#main".data = { acc with currentSection := DeckTypeValue.main } :=
  rfl

theorem parseLine_marker_extra (acc : ParseAcc) :
    parseLine acc "#extra".data = { acc with currentSection := DeckTypeValue.extra } :=
  rfl

theorem parseLine_marker_side (acc : ParseAcc) :
    parseLine acc "!side".data = { acc with currentSection := DeckTypeValue.side } :=
  rfl

theorem parseLine_blank (acc : ParseAcc) : parseLine acc [] = acc := rfl

/-- The `#created by` line stores the trimmed tail as the deck name. -/
theorem parseLine_nameLine (acc : ParseAcc) (nm : List Char) (hne : nm ≠ [])
    (ht : trimChars nm = nm) :
    parseLine acc ("#created by ".data ++ nm) =
      { acc with deckName := some nm } := by
  obtain ⟨hh, hl⟩ := clean_head_last nm ht
  have hline : trimChars ("#created by ".data ++ nm) = "#created by ".data ++ nm := by
    apply trimChars_eq_self_of_ends
    · intro c hc
      have : c = '#' := by
        have h0 : ("#created by ".data ++ nm).head? = some '#' := rfl
        rw [h0] at hc
        injection hc with h1
        exact h1.symm
      subst this
      decide
    · intro c hc
      rw [List.getLast?_append_of_ne_nil _ hne] at hc
      exact hl c hc
  have hlow : lowerChars ("#created by ".data ++ nm) =
      "#created by ".data ++ lowerChars nm := by
    unfold lowerChars
    rw [List.map_append]
    congr 1
  have hbw : beginsWith "#created by".data
      (lowerChars ("#created by ".data ++ nm)) = true := by
    rw [hlow]
    rw [show "#created by ".data = "#created by".data ++ [' '] from rfl,
      List.append_assoc]
    exact beginsWith_append_self _ _
  have hdrop : ("#created by ".data ++ nm).drop 11 = ' ' :: nm := rfl
  have htr : trimChars (' ' :: nm) = nm := by
    unfold trimChars
    rw [List.dropWhile_cons, if_pos (by decide)]
    rw [(trim_eq_self_parts nm ht).1, (trim_eq_self_parts nm ht).2]
    exact List.reverse_reverse nm
  simp only [parseLine, hline]
  rw [if_neg (by simp), if_pos (by exact beginsWith_append_self ['#'] _),
    if_pos hbw, hdrop, htr, if_neg hne]

/-- A serialized id line appends exactly its card id to the current zone. -/
theorem parseLine_idLine (acc : ParseAcc) (i : Int) :
    parseLine acc (intDecimal i) = appendId acc i := by
  obtain ⟨c, cs, hshape, hc1, hc2⟩ := intDecimal_head_not_marker i
  have htrim : trimChars (intDecimal i) = intDecimal i :=
    trimChars_eq_self_of_all _ (intDecimal_no_space i)
  have h4 := (c9_line_handling acc (intDecimal i)).2.2.2.1 c cs
    (by rw [htrim]; exact hshape) hc1 hc2
  rw [h4, htrim, parseIntBase10_intDecimal]

/-- The multiset of ids one zone's serialized section stands for (one id
per copy). -/
def zoneIdSeq (zone : List DeckCard) : List Int :=
  zone.flatMap (fun dc => List.replicate dc.quantity.toNat dc.card.id)

/-- Appending a list of parsed ids to the current zone. -/
def appendIds (acc : ParseAcc) (ids : List Int) : ParseAcc :=
  ids.foldl appendId acc

theorem appendIds_append (acc : ParseAcc) (a b : List Int) :
    appendIds acc (a ++ b) = appendIds (appendIds acc a) b :=
  List.foldl_append ..

theorem foldl_parseLine_replicate (k : Nat) (i : Int) :
    ∀ acc : ParseAcc,
      (List.replicate k (intDecimal i)).foldl parseLine acc =
        appendIds acc (List.replicate k i) := by
  induction k with
  | zero => intro acc; rfl
  | succ k ih =>
    intro acc
    simp only [List.replicate_succ, List.foldl_cons]
    rw [parseLine_idLine]
    exact ih (appendId acc i)

theorem foldl_parseLine_section (zone : List DeckCard)
    (hnz : ∀ dc ∈ zone, dc.card.id ≠ 0) :
    ∀ acc : ParseAcc,
      (serializeDeckSection zone).foldl parseLine acc =
        appendIds acc (zoneIdSeq zone) := by
  induction zone with
  | nil => intro acc; rfl
  | cons dc rest ih =>
    intro acc
    have h0 : (dc.card.id == 0) = false := by
      simpa using hnz dc (List.mem_cons_self _ _)
    show ((if dc.card.id == 0 then [] else
        List.replicate dc.quantity.toNat (intDecimal dc.card.id)) ++
          serializeDeckSection rest).foldl parseLine acc = _
    rw [h0]
    simp only [Bool.false_eq_true, if_false]
    rw [List.foldl_append, foldl_parseLine_replicate]
    rw [ih (fun x hx => hnz x (List.mem_cons_of_mem _ hx))]
    show _ = appendIds acc
      ((List.replicate dc.quantity.toNat dc.card.id) ++ zoneIdSeq rest)
    rw [appendIds_append]

theorem appendId_fields (acc : ParseAcc) (i : Int) :
    (appendId acc i).currentSection = acc.currentSection ∧
    (appendId acc i).deckName = acc.deckName := by
  cases h : acc.currentSection <;> simp [appendId, h]

theorem appendIds_main (ids : List Int) :
    ∀ acc : ParseAcc, acc.currentSection = DeckTypeValue.main →
      appendIds acc ids = { acc with mainIds := acc.mainIds ++ ids } := by
  induction ids with
  | nil => intro acc _; simp [appendIds]
  | cons i rest ih =>
    intro acc h
    show appendIds (appendId acc i) rest = _
    have hstep : appendId acc i = { acc with mainIds := acc.mainIds ++ [i] } := by
      simp [appendId, h]
    rw [hstep, ih _ (by simp [h])]
    simp

theorem appendIds_extra (ids : List Int) :
    ∀ acc : ParseAcc, acc.currentSection = DeckTypeValue.extra →
      appendIds acc ids = { acc with extraIds := acc.extraIds ++ ids } := by
  induction ids with
  | nil => intro acc _; simp [appendIds]
  | cons i rest ih =>
    intro acc h
    show appendIds (appendId acc i) rest = _
    have hstep : appendId acc i = { acc with extraIds := acc.extraIds ++ [i] } := by
      simp [appendId, h]
    rw [hstep, ih _ (by simp [h])]
    simp

theorem appendIds_side (ids : List Int) :
    ∀ acc : ParseAcc, acc.currentSection = DeckTypeValue.side →
      appendIds acc ids = { acc with sideIds := acc.sideIds ++ ids } := by
  induction ids with
  | nil => intro acc _; simp [appendIds]
  | cons i rest ih =>
    intro acc h
    show appendIds (appendId acc i) rest = _
    have hstep : appendId acc i = { acc with sideIds := acc.sideIds ++ [i] } := by
      simp [appendId, h]
    rw [hstep, ih _ (by simp [h])]
    simp

/-! ### the parser state after reading a serialized deck -/

theorem buildYdkLines_eq (d : DeckState) (n : String) (hname : d.name = some n)
    (hne : n.data ≠ []) (ht : trimChars n.data = n.data) :
    buildYdkLines d =
      ("#created by ".data ++ n.data) :: "#main".data ::
        serializeDeckSection d.mainDeck ++ "#extra".data ::
        serializeDeckSection d.extraDeck ++ "!side".data ::
        serializeDeckSection d.sideDeck := by
  simp only [buildYdkLines, hname]
  rw [if_neg (by rw [ht]; exact hne), ht]

theorem mem_serializeDeckSection (zone : List DeckCard) (l : List Char)
    (h : l ∈ serializeDeckSection zone) :
    ∃ dc ∈ zone, l = intDecimal dc.card.id := by
  unfold serializeDeckSection at h
  rw [List.mem_flatMap] at h
  obtain ⟨dc, hdc, hl⟩ := h
  refine ⟨dc, hdc, ?_⟩
  by_cases h0 : (dc.card.id == 0) = true
  · rw [if_pos h0] at hl
    cases hl
  · rw [if_neg h0] at hl
    exact List.eq_of_mem_replicate hl

theorem intDecimal_line_facts (i : Int) :
    intDecimal i ≠ [] ∧ (∀ c ∈ intDecimal i, c ≠ '\n') ∧
      (∀ c, (intDecimal i).getLast? = some c → isSpaceChar c = false) := by
  refine ⟨intDecimal_ne_nil i, ?_, ?_⟩
  · intro c hc
    have := intDecimal_no_space i c hc
    rintro rfl
    exact absurd this (by decide)
  · intro c hc
    exact intDecimal_no_space i c (mem_of_getLast?_eq_some hc)

theorem serialized_line_facts (d : DeckState) (n : String)
    (hname : d.name = some n) (hne : n.data ≠ []) (ht : trimChars n.data = n.data)
    (hnl : ∀ c ∈ n.data, c ≠ '\n') :
    ∀ l ∈ buildYdkLines d,
      l ≠ [] ∧ (∀ c ∈ l, c ≠ '\n') ∧
        (∀ c, l.getLast? = some c → isSpaceChar c = false) := by
  intro l hl
  rw [buildYdkLines_eq d n hname hne ht] at hl
  have hid : ∀ zone (h : l ∈ serializeDeckSection zone),
      l ≠ [] ∧ (∀ c ∈ l, c ≠ '\n') ∧
        (∀ c, l.getLast? = some c → isSpaceChar c = false) := by
    intro zone h
    obtain ⟨dc, _, rfl⟩ := mem_serializeDeckSection zone l h
    exact intDecimal_line_facts dc.card.id
  rcases List.mem_append.mp hl with h1 | h1
  · rcases List.mem_append.mp h1 with h2 | h2
    · rcases List.mem_cons.mp h2 with h3 | h3
      · subst h3
        refine ⟨by simp, ?_, ?_⟩
        · intro c hc
          rcases List.mem_append.mp hc with h4 | h4
          · have hall : ∀ x ∈ "#created by ".data, x ≠ '\n' := by decide
            exact hall c h4
          · exact hnl c h4
        · intro c hc
          rw [List.getLast?_append_of_ne_nil _ hne] at hc
          exact (clean_head_last n.data ht).2 c hc
      · rcases List.mem_cons.mp h3 with h4 | h4
        · subst h4
          refine ⟨by decide, by decide, by decide⟩
        · exact hid d.mainDeck h4
    · rcases List.mem_cons.mp h2 with h3 | h3
      · subst h3
        refine ⟨by decide, by decide, by decide⟩
      · exact hid d.extraDeck h3
  · rcases List.mem_cons.mp h1 with h2 | h2
    · subst h2
      refine ⟨by decide, by decide, by decide⟩
    · exact hid d.sideDeck h2

theorem parseYdkLines_serialize (d : DeckState) (n : String)
    (hname : d.name = some n) (hne : n.data ≠ []) (ht : trimChars n.data = n.data)
    (hnl : ∀ c ∈ n.data, c ≠ '\n')
    (hm0 : ∀ dc ∈ d.mainDeck, dc.card.id ≠ 0)
    (he0 : ∀ dc ∈ d.extraDeck, dc.card.id ≠ 0)
    (hs0 : ∀ dc ∈ d.sideDeck, dc.card.id ≠ 0) :
    parseYdkLines (buildYdkContent d) =
      { mainIds := zoneIdSeq d.mainDeck, extraIds := zoneIdSeq d.extraDeck,
        sideIds := zoneIdSeq d.sideDeck, currentSection := DeckTypeValue.side,
        deckName := some n.data } := by
  have hfacts := serialized_line_facts d n hname hne ht hnl
  have hnonnil : buildYdkLines d ≠ [] := by
    rw [buildYdkLines_eq d n hname hne ht]
    simp
  have htrimEnd : trimEndChars (joinLines (buildYdkLines d)) =
      joinLines (buildYdkLines d) :=
    trimEnd_joinLines _ hnonnil (fun l hl => (hfacts l hl).1)
      (fun l hl => (hfacts l hl).2.2)
  have hsplit : splitLines (buildYdkContent d).data = buildYdkLines d ++ [[]] := by
    show splitLines (trimEndChars (joinLines (buildYdkLines d)) ++ ['\n']) = _
    rw [htrimEnd]
    exact splitLines_join _ (fun l hl => (hfacts l hl).2.1) hnonnil
  unfold parseYdkLines
  rw [hsplit, buildYdkLines_eq d n hname hne ht]
  simp only [List.foldl_append, List.foldl_cons, List.foldl_nil]
  rw [parseLine_nameLine initialAcc n.data hne ht, parseLine_marker_main]
  rw [foldl_parseLine_section d.mainDeck hm0]
  rw [appendIds_main _ _ rfl]
  rw [parseLine_marker_extra]
  rw [foldl_parseLine_section d.extraDeck he0]
  rw [appendIds_extra _ _ rfl]
  rw [parseLine_marker_side]
  rw [foldl_parseLine_section d.sideDeck hs0]
  rw [appendIds_side _ _ rfl]
  rw [parseLine_blank]
  rfl

/-! ### rebuilding the zones from the parsed id lists -/

theorem zoneIdSeq_cons (dc : DeckCard) (rest : List DeckCard) :
    zoneIdSeq (dc :: rest) =
      List.replicate dc.quantity.toNat dc.card.id ++ zoneIdSeq rest := by
  simp [zoneIdSeq]

theorem mem_zoneIdSeq (zone : List DeckCard) (i : Int) (h : i ∈ zoneIdSeq zone) :
    ∃ dc ∈ zone, dc.card.id = i := by
  unfold zoneIdSeq at h
  rw [List.mem_flatMap] at h
  obtain ⟨dc, hdc, hi⟩ := h
  exact ⟨dc, hdc, (List.eq_of_mem_replicate hi).symm⟩

theorem filter_ne_idem (i : Int) (L : List Int) :
    (L.filter (fun j => j ≠ i)).filter (fun j => j ≠ i) =
      L.filter (fun j => j ≠ i) := by
  rw [List.filter_filter]
  refine List.filter_congr ?_
  intro x hx
  by_cases hxi : x = i <;> simp [hxi]

theorem firstOccur_replicate_append (i : Int) (rest : List Int) :
    ∀ k, k ≠ 0 → firstOccur (List.replicate k i ++ rest) =
      i :: (firstOccur rest).filter (fun j => j ≠ i) := by
  intro k
  induction k with
  | zero => intro h; exact absurd rfl h
  | succ k ih =>
    intro _
    rw [List.replicate_succ, List.cons_append]
    rw [show firstOccur (i :: (List.replicate k i ++ rest)) =
      i :: (firstOccur (List.replicate k i ++ rest)).filter (fun j => j ≠ i)
      from rfl]
    by_cases hk : k = 0
    · subst hk
      rfl
    · rw [ih hk]
      congr 1
      rw [List.filter_cons_of_neg (by simp)]
      exact filter_ne_idem i (firstOccur rest)

theorem firstOccur_zoneIdSeq (zone : List DeckCard)
    (hq : ∀ dc ∈ zone, 1 ≤ dc.quantity)
    (hnd : (zone.map (fun dc => dc.card.id)).Nodup) :
    firstOccur (zoneIdSeq zone) = zone.map (fun dc => dc.card.id) := by
  induction zone with
  | nil => rfl
  | cons dc rest ih =>
    rw [zoneIdSeq_cons]
    have hk : dc.quantity.toNat ≠ 0 := by
      have := hq dc (List.mem_cons_self _ _)
      omega
    rw [firstOccur_replicate_append dc.card.id _ _ hk, List.map_cons]
    obtain ⟨hnotin, hndrest⟩ := List.nodup_cons.mp hnd
    congr 1
    rw [ih (fun x hx => hq x (List.mem_cons_of_mem _ hx)) hndrest]
    refine List.filter_eq_self.mpr ?_
    intro x hx
    have hxne : x ≠ dc.card.id := by
      intro h
      apply hnotin
      show dc.card.id ∈ List.map (fun dc => dc.card.id) rest
      rw [← h]
      exact hx
    simpa using hxne

theorem count_zoneIdSeq (zone : List DeckCard)
    (hnd : (zone.map (fun dc => dc.card.id)).Nodup) :
    ∀ dc ∈ zone, (zoneIdSeq zone).count dc.card.id = dc.quantity.toNat := by
  induction zone with
  | nil => intro dc h; cases h
  | cons hd rest ih =>
    intro dc hdc
    rw [zoneIdSeq_cons, List.count_append]
    obtain ⟨hnotin, hndrest⟩ := List.nodup_cons.mp hnd
    rcases List.mem_cons.mp hdc with h1 | hmem
    · subst h1
      have hzero : (zoneIdSeq rest).count dc.card.id = 0 := by
        rw [List.count_eq_zero]
        intro hmem2
        obtain ⟨dc2, hdc2, hid2⟩ := mem_zoneIdSeq rest _ hmem2
        have h5 : dc2.card.id ∈ rest.map (fun dc => dc.card.id) :=
          List.mem_map_of_mem _ hdc2
        rw [hid2] at h5
        exact hnotin h5
      rw [hzero, List.count_replicate]
      simp
    · have hne : (hd.card.id == dc.card.id) = false := by
        have : hd.card.id ≠ dc.card.id := by
          intro h
          have h5 : dc.card.id ∈ rest.map (fun dc => dc.card.id) :=
            List.mem_map_of_mem _ hmem
          rw [← h] at h5
          exact hnotin h5
        simpa using this
      rw [List.count_replicate, if_neg (by simp [hne]), ih hndrest dc hmem]
      simp

theorem map_eq_self_of {α : Type} (f : α → α) (l : List α)
    (h : ∀ x ∈ l, f x = x) : l.map f = l := by
  induction l with
  | nil => rfl
  | cons x xs ih =>
    rw [List.map_cons, h x (List.mem_cons_self _ _),
      ih (fun y hy => h y (List.mem_cons_of_mem _ hy))]

theorem buildDeckSection_zoneIdSeq (lookup : Int → Option Card)
    (zone : List DeckCard)
    (hq : ∀ dc ∈ zone, 1 ≤ dc.quantity)
    (hnd : (zone.map (fun dc => dc.card.id)).Nodup)
    (hres : ∀ dc ∈ zone, lookup dc.card.id = some dc.card) :
    buildDeckSectionFromIds lookup (zoneIdSeq zone) = Except.ok zone := by
  rw [c8_collapse_multiplicities lookup _ ?hres]
  case hres =>
    intro i hi
    obtain ⟨dc, hdc, rfl⟩ := mem_zoneIdSeq zone i hi
    rw [hres dc hdc]
    exact Option.some_ne_none _
  congr 1
  rw [firstOccur_zoneIdSeq zone hq hnd, List.map_map]
  refine map_eq_self_of _ zone ?_
  intro dc hdc
  show DeckCard.mk ((lookup dc.card.id).getD anyCard)
    ((zoneIdSeq zone).count dc.card.id : Int) = dc
  rw [hres dc hdc, count_zoneIdSeq zone hnd dc hdc]
  have h3 : ((dc.quantity.toNat : Nat) : Int) = dc.quantity := by
    have := hq dc hdc
    omega
  rw [Option.getD_some, h3]

/-- C2 amended: for every deck state `d` whose name is a trim-stable
nonempty string without newline characters, whose zones hold entries with
pairwise-distinct nonzero card ids and quantities at least 1, and whose
card ids the catalog resolves to the entries' own card records,
deserializing the text produced by serializing `d` yields exactly `d`'s
zone contents (same cards, same order, same quantities) and `d`'s name. -/
theorem c2_roundtrip (lookup : Int → Option Card) (d : DeckState) (n : String)
    (hname : d.name = some n)
    (hnne : n.data ≠ []) (htrim : trimChars n.data = n.data)
    (hnl : ∀ c ∈ n.data, c ≠ '\n')
    (hmain : (∀ dc ∈ d.mainDeck, dc.card.id ≠ 0 ∧ 1 ≤ dc.quantity ∧
        lookup dc.card.id = some dc.card) ∧
      (d.mainDeck.map (fun dc => dc.card.id)).Nodup)
    (hextra : (∀ dc ∈ d.extraDeck, dc.card.id ≠ 0 ∧ 1 ≤ dc.quantity ∧
        lookup dc.card.id = some dc.card) ∧
      (d.extraDeck.map (fun dc => dc.card.id)).Nodup)
    (hside : (∀ dc ∈ d.sideDeck, dc.card.id ≠ 0 ∧ 1 ≤ dc.quantity ∧
        lookup dc.card.id = some dc.card) ∧
      (d.sideDeck.map (fun dc => dc.card.id)).Nodup) :
    parseYdkContent lookup (buildYdkContent d) =
      Except.ok
        { mainDeck := d.mainDeck, extraDeck := d.extraDeck,
          sideDeck := d.sideDeck, name := some n, genesysPoints := none } := by
  have hacc := parseYdkLines_serialize d n hname hnne htrim hnl
    (fun dc h => (hmain.1 dc h).1) (fun dc h => (hextra.1 dc h).1)
    (fun dc h => (hside.1 dc h).1)
  have hbm := buildDeckSection_zoneIdSeq lookup d.mainDeck
    (fun dc h => (hmain.1 dc h).2.1) hmain.2 (fun dc h => (hmain.1 dc h).2.2)
  have hbe := buildDeckSection_zoneIdSeq lookup d.extraDeck
    (fun dc h => (hextra.1 dc h).2.1) hextra.2 (fun dc h => (hextra.1 dc h).2.2)
  have hbs := buildDeckSection_zoneIdSeq lookup d.sideDeck
    (fun dc h => (hside.1 dc h).2.1) hside.2 (fun dc h => (hside.1 dc h).2.2)
  simp only [parseYdkContent, hacc, hbm, hbe, hbs, Option.getD_some]

/-- A deck whose stored name has surrounding whitespace. -/
def paddedNameDeck : DeckState :=
  { mainDeck := [], extraDeck := [], sideDeck := [],
    name := some " A ", genesysPoints := none }

/-- C2 counterexample: serializing a deck whose name is `" A "` and
deserializing the result yields the name `"A"`, not `" A "` — the codec
trims the name on the way out, so the round trip does not reproduce every
deck state's name exactly. -/
theorem c2_counterexample :
    parseYdkContent (fun _ => none) (buildYdkContent paddedNameDeck) =
      Except.ok
        { mainDeck := [], extraDeck := [], sideDeck := [],
          name := some "A", genesysPoints := none } ∧
    (some "A" : Option String) ≠ paddedNameDeck.name :=
  ⟨rfl, by decide⟩

/-- A concrete deck and catalog for the round-trip instantiation. -/
def rtDeck : DeckState :=
  { mainDeck := [{ card := monsterSample, quantity := 3 },
      { card := card7, quantity := 1 }],
    extraDeck := [{ card := fusionSample, quantity := 2 }],
    sideDeck := [], name := some "My Deck", genesysPoints := none }

/-- Catalog resolving exactly the three cards of `rtDeck`. -/
def rtLookup : Int → Option Card := fun i =>
  if i == 20 then some monsterSample
  else if i == 7 then some card7
  else if i == 10 then some fusionSample
  else none

/-- Closed instantiation of the C2 amendment. -/
theorem c2_roundtrip_witness :
    parseYdkContent rtLookup (buildYdkContent rtDeck) =
      Except.ok
        { mainDeck := rtDeck.mainDeck, extraDeck := rtDeck.extraDeck,
          sideDeck := rtDeck.sideDeck, name := some "My Deck",
          genesysPoints := none } :=
  c2_roundtrip rtLookup rtDeck "My Deck" rfl (by decide) (by decide)
    (by decide) ⟨by decide, by decide⟩ ⟨by decide, by decide⟩
    ⟨by decide, by decide⟩

end YGG
